import Mathlib

/-!
# Verification of the mindstream todo.txt task core

Shallow embedding of the task core of the `mindstream` repository:
the `TaskRecurrence` value, the recurrence extension extractor, the
`Task` entity with its operations (`create`, `update`, `toTaskData`,
`toggleComplete`, `postpone`, `recur`, `clone`), and the line
codec (parse / serialize) it delegates to.

The `TaskRecurrence`, extension, and `Task` code is translated from
`src/shared/task.ts`.  The `jstodotxt` line codec (`TodoTxtItem`) and
the `misc` date helpers (`dateToString`, `stringToDate`) are not part
of the repository sources, so they are modelled from the specification
(section 4.1, 4.3 and 6 of the spec); their doc comments say so.

Dates are plain `(year, month, day)` triples of naturals; strings are
handled through their underlying `List Char`.
-/

namespace Mindstream

/-! ## Calendar dates -/

/-- A calendar date (no time component). -/
structure CalDate where
  year : Nat
  month : Nat
  day : Nat
deriving DecidableEq, Repr

/-- Gregorian leap-year rule, as used by the date libraries the code
delegates to (`moment`, JS `Date`). -/
def isLeap (y : Nat) : Bool :=
  y % 4 == 0 && (y % 100 != 0 || y % 400 == 0)

/-- Number of days of month `m` of year `y`. -/
def daysInMonth (y m : Nat) : Nat :=
  if m = 2 then (if isLeap y then 29 else 28)
  else if m = 4 ∨ m = 6 ∨ m = 9 ∨ m = 11 then 30 else 31

/-- A well-formed calendar date renderable as `YYYY-MM-DD`. -/
def validDate (d : CalDate) : Bool :=
  1 ≤ d.month && d.month ≤ 12 && 1 ≤ d.day && d.day ≤ daysInMonth d.year d.month
    && d.year ≤ 9999

/-- The decimal digit character for `n` (0–9). -/
def digitChar (n : Nat) : Char :=
  match n with
  | 0 => '0' | 1 => '1' | 2 => '2' | 3 => '3' | 4 => '4'
  | 5 => '5' | 6 => '6' | 7 => '7' | 8 => '8' | _ => '9'

/-- The value of a decimal digit character. -/
def parseDigit (c : Char) : Option Nat :=
  if c = '0' then some 0 else if c = '1' then some 1 else if c = '2' then some 2
  else if c = '3' then some 3 else if c = '4' then some 4 else if c = '5' then some 5
  else if c = '6' then some 6 else if c = '7' then some 7 else if c = '8' then some 8
  else if c = '9' then some 9 else none

/-- Two-digit zero-padded rendering. -/
def pad2 (n : Nat) : List Char := [digitChar (n / 10), digitChar (n % 10)]

/-- Four-digit zero-padded rendering. -/
def pad4 (n : Nat) : List Char :=
  [digitChar (n / 1000), digitChar (n / 100 % 10), digitChar (n / 10 % 10), digitChar (n % 10)]

/-- Modelled from the spec: the `dateToString` helper of the missing
`misc` module renders a date as `YYYY-MM-DD` (the spec's `date`
grammar and the `DATESTRING_REGEXP` shape). -/
def dateToStringL (d : CalDate) : List Char :=
  pad4 d.year ++ '-' :: (pad2 d.month ++ '-' :: pad2 d.day)

/-- Modelled from the spec: `dateToString` as a `String`. -/
def dateToString (d : CalDate) : String := String.mk (dateToStringL d)

/-- Strict parse of exactly ten characters `YYYY-MM-DD` into a valid
calendar date; any other shape (including out-of-range month or
day-of-month) yields `none`, per the spec's rule that a malformed date
value is treated as absent by the date layer. -/
def parseDate10 : List Char → Option CalDate
  | [y1, y2, y3, y4, h1, n1, n2, h2, e1, e2] =>
    if h1 = '-' && h2 = '-' then
      match parseDigit y1, parseDigit y2, parseDigit y3, parseDigit y4,
            parseDigit n1, parseDigit n2, parseDigit e1, parseDigit e2 with
      | some a, some b, some c, some d, some m1, some m2, some k1, some k2 =>
        if 1 ≤ 10 * m1 + m2 && 10 * m1 + m2 ≤ 12 && 1 ≤ 10 * k1 + k2
            && 10 * k1 + k2 ≤ daysInMonth (1000 * a + 100 * b + 10 * c + d) (10 * m1 + m2) then
          some ⟨1000 * a + 100 * b + 10 * c + d, 10 * m1 + m2, 10 * k1 + k2⟩
        else none
      | _, _, _, _, _, _, _, _ => none
    else none
  | _ => none

/-- Modelled from the spec: the `stringToDate` helper of the missing
`misc` module parses a `YYYY-MM-DD` string; it never throws, and an
unparseable string yields no date. -/
def stringToDate (s : String) : Option CalDate := parseDate10 s.data

/-! ## Date arithmetic

`postpone` uses the JS `Date` one-day step (`setDate(getDate() + 1)`),
`TaskRecurrence.addTo` delegates to `moment().add(amount, key)` with
the raw unit character as the key.  Day steps roll over month and year
boundaries.  For the monthly key the spec (section 4.2) intends
clamped calendar month addition (`addMonths` below states that intent
for comparison), but moment's unit shorthand table reads lowercase `m`
as minutes — months are `M` — so the program adds minutes for `"m"`. -/

/-- The next calendar day (JS `Date.setDate(getDate() + 1)` on a valid
date: rolls over month and year boundaries). -/
def nextDay (d : CalDate) : CalDate :=
  if d.day < daysInMonth d.year d.month then ⟨d.year, d.month, d.day + 1⟩
  else if d.month < 12 then ⟨d.year, d.month + 1, 1⟩
  else ⟨d.year + 1, 1, 1⟩

/-- Adding `n` calendar days. -/
def addDays : Nat → CalDate → CalDate
  | 0, d => d
  | n + 1, d => addDays n (nextDay d)

/-- Modelled from the spec (section 4.2): the intended monthly
recurrence step — adding `n` calendar months, clamping the day to the
length of the target month (`moment.add(n, 'month')` semantics).  The
program never performs it: `addTo` passes the key `'m'`, which moment
reads as minutes.  Kept for comparison with the code's behavior. -/
def addMonths (n : Nat) (d : CalDate) : CalDate :=
  ⟨d.year + (d.month - 1 + n) / 12, (d.month - 1 + n) % 12 + 1,
   min d.day (daysInMonth (d.year + (d.month - 1 + n) / 12) ((d.month - 1 + n) % 12 + 1))⟩

/-! ## TaskRecurrence -/

/-- The parsed recurrence rule of `src/shared/task.ts`: an `amount`
(1–7) and a granularity `key` (`"d"`, `"w"` or `"m"`). -/
structure TaskRecurrence where
  amount : Nat
  key : String
deriving DecidableEq, Repr

/-- Is `c` a recurrence amount digit (`[1-7]` of `RECURRENCE_REGEXP`)? -/
def isRecAmt (c : Char) : Bool :=
  c = '1' ∨ c = '2' ∨ c = '3' ∨ c = '4' ∨ c = '5' ∨ c = '6' ∨ c = '7'

/-- Is `c` a recurrence unit (`(d|w|m)` of `RECURRENCE_REGEXP`)? -/
def isRecUnit (c : Char) : Bool := c = 'd' ∨ c = 'w' ∨ c = 'm'

/-- The recurrence value built from an amount digit and a unit letter,
as the `TaskRecurrence` constructor does from the two capture groups of
`RECURRENCE_REGEXP` (`parseInt(match[1])` and `match[2]`). -/
def mkRec (a u : Char) : TaskRecurrence := ⟨a.toNat - 48, String.mk [u]⟩

/-- The `TaskRecurrence` constructor, `new TaskRecurrence(value)`:
matches `value` against `^([1-7])(d|w|m)$`.  On a non-matching string
the JS constructor dereferences the `null` match result and throws a
`TypeError`; that fault is modelled by `none`. -/
def TaskRecurrence.fromString (value : String) : Option TaskRecurrence :=
  match value.data with
  | [a, u] => if isRecAmt a && isRecUnit u then some (mkRec a u) else none
  | _ => none

/-- `TaskRecurrence.toString()`: renders back to `"<amount><key>"`. -/
def TaskRecurrence.render (r : TaskRecurrence) : String :=
  Nat.repr r.amount ++ r.key

/-- `TaskRecurrence.addTo(date)`: `moment(date).add(this.amount,
this.key)`.  In moment's unit table the shorthand `d` is days and `w`
is weeks, but lowercase `m` means minutes (months are `M`), so the
`"m"` key adds `amount` minutes.  Due dates carry no time of day (they
are parsed from `YYYY-MM-DD`, anchored at midnight) and the amount is
at most 7, so at calendar-date granularity the minute addition leaves
the date unchanged; an unrecognized key is ignored by `moment` (no
change). -/
def TaskRecurrence.addTo (r : TaskRecurrence) (date : CalDate) : CalDate :=
  if r.key = "d" then addDays r.amount date
  else if r.key = "w" then addDays (7 * r.amount) date
  else date

/-! ## Whitespace, tokens -/

/-- Whitespace characters (the JS regex `\s`, restricted to the forms
occurring in todo.txt lines). -/
def isWsChar (c : Char) : Bool := c = ' ' ∨ c = '\t' ∨ c = '\n' ∨ c = '\r'

/-- Split a character list into maximal whitespace-free tokens
(the accumulator holds the current token, reversed). -/
def splitWsAux : List Char → List Char → List (List Char)
  | [], acc => if acc = [] then [] else [acc.reverse]
  | c :: cs, acc =>
    if isWsChar c then
      (if acc = [] then [] else [acc.reverse]) ++ splitWsAux cs []
    else splitWsAux cs (c :: acc)

/-- Tokens of a line: maximal runs of non-whitespace characters. -/
def splitWs (l : List Char) : List (List Char) := splitWsAux l []

/-- Join tokens with single spaces. -/
def joinT : List (List Char) → List Char
  | [] => []
  | [t] => t
  | t :: ts => t ++ ' ' :: joinT ts

/-- A usable token: nonempty and whitespace-free. -/
def goodTok (t : List Char) : Bool := !t.isEmpty && t.all (fun c => !isWsChar c)

/-- Prepend tokens, each followed by one space, to a line suffix. -/
def prependToks (pre : List (List Char)) (inner : List Char) : List Char :=
  pre.foldr (fun tk acc => tk ++ ' ' :: acc) inner

/-- Does `l` contain `pat` as a contiguous substring? -/
def containsSeq (pat : List Char) : List Char → Bool
  | [] => pat.isEmpty
  | c :: cs => pat.isPrefixOf (c :: cs) || containsSeq pat cs

/-! ## Extractors

The recurrence extractor is `RecurrenceExtension.parsingFunction` from
`src/shared/task.ts`: it applies `RECURRENCE_TAG_REGEXP =
/rec:([1-7](d|w|m))(\s|$)/` to the line and removes the first match.
The due-date extractor is the `DueExtension` of `jstodotxt`, modelled
from the spec (section 4.1): it recognizes a `due:YYYY-MM-DD` tag
surrounded by whitespace or line boundaries, treats a malformed date
value as no match, and removes the tag and one adjacent whitespace.
Both are expressed with a generic leftmost-match scanner `scanE` whose
matcher gets a flag saying whether the position follows whitespace
(or the line start). -/

/-- Head-anchored match of `rec:([1-7](d|w|m))(\s|$)`: yields the
recurrence value, the raw matched capture, and the characters after
the match (the captured whitespace, when present, is consumed). -/
def recMatch : List Char → Option ((TaskRecurrence × String) × List Char)
  | c1 :: c2 :: c3 :: c4 :: a :: u :: rest =>
    if c1 = 'r' && c2 = 'e' && c3 = 'c' && c4 = ':' && isRecAmt a && isRecUnit u then
      match rest with
      | [] => some ((mkRec a u, String.mk [a, u]), [])
      | c :: rest2 =>
        if isWsChar c then some ((mkRec a u, String.mk [a, u]), rest2) else none
    else none
  | _ => none

/-- Head-anchored match of the due tag `due:YYYY-MM-DD` at a position
that follows whitespace or the line start (`pw`), with a whitespace or
end-of-line boundary after the date; yields the date, the raw matched
date characters, and the characters after the match (one trailing
whitespace consumed). -/
def dueMatch (pw : Bool) (l : List Char) : Option ((CalDate × List Char) × List Char) :=
  if pw then
    match l with
    | c1 :: c2 :: c3 :: c4 :: rest =>
      if c1 = 'd' && c2 = 'u' && c3 = 'e' && c4 = ':' then
        match parseDate10 (rest.take 10) with
        | some d =>
          match rest.drop 10 with
          | [] => some ((d, rest.take 10), [])
          | c :: r2 => if isWsChar c then some ((d, rest.take 10), r2) else none
        | none => none
      else none
    | _ => none
  else none

/-- Leftmost-match scanner: try the matcher at every position, left to
right, passing whether the position follows whitespace (or the start);
on a match, return its value together with the line with the matched
part removed (characters before the match are kept). -/
def scanE {α : Type} (m : Bool → List Char → Option (α × List Char)) :
    Bool → List Char → Option (α × List Char)
  | _, [] => none
  | pw, c :: cs =>
    match m pw (c :: cs) with
    | some (a, after) => some (a, after)
    | none => (scanE m (isWsChar c) cs).map (fun p => (p.1, c :: p.2))

/-- The recurrence extractor applied to a whole line: first match of
`RECURRENCE_TAG_REGEXP`, with the residual line (`line.replace(tag,
'')`). -/
def extractRec (l : List Char) : Option ((TaskRecurrence × String) × List Char) :=
  scanE (fun _ => recMatch) true l

/-- Modelled from the spec: the due-date extractor applied to a whole
line (first boundary-guarded `due:` tag; malformed dates are no
match). -/
def extractDue (l : List Char) : Option ((CalDate × List Char) × List Char) :=
  scanE dueMatch true l

/-- `RecurrenceExtension.parsingFunction(line)`: returns the parsed
recurrence, the line with the tag removed, and the raw matched
recurrence string, or three absent values when there is no match. -/
def parsingFunction (line : String) :
    Option TaskRecurrence × Option String × Option String :=
  match extractRec line.data with
  | some ((r, raw), res) => (some r, some (String.mk res), some raw)
  | none => (none, none, none)

/-! ## The line codec (`TodoTxtItem` of `jstodotxt`) -/

/-- The parsed representation of one todo.txt line, as held by
`jstodotxt`'s `TodoTxtItem` (the `rec` field of the JS object is named
`recurrence` here because `rec` is reserved in Lean). -/
structure TodoTxtItem where
  text : String
  projects : Option (List String)
  contexts : Option (List String)
  priority : Option String
  date : Option CalDate
  complete : Bool
  completed : Option CalDate
  due : Option CalDate
  dueString : Option String
  recurrence : Option TaskRecurrence
  recString : Option String
deriving DecidableEq, Repr

/-- Is `c` an uppercase letter (the priority grammar `^[A-Z]$`)? -/
def isUpperAZ (c : Char) : Bool := 'A' ≤ c && c ≤ 'Z'

/-- Modelled from the spec: strip a leading completion marker
`"x " date` (followed by whitespace or the line end) from the line,
yielding the completion flag, the completion date, and the rest. -/
def stripCompletion (l : List Char) : Bool × Option CalDate × List Char :=
  match l with
  | c0 :: c1 :: rest =>
    if c0 = 'x' && isWsChar c1 then
      match parseDate10 (rest.take 10) with
      | some d =>
        match rest.drop 10 with
        | [] => (true, some d, [])
        | c :: r2 => if isWsChar c then (true, some d, r2) else (false, none, l)
      | none => (false, none, l)
    else (false, none, l)
  | _ => (false, none, l)

/-- Modelled from the spec: strip a leading priority marker `(X)`
(followed by whitespace or the line end). -/
def stripPriority (l : List Char) : Option String × List Char :=
  match l with
  | c0 :: c1 :: c2 :: rest =>
    if c0 = '(' && isUpperAZ c1 && c2 = ')' then
      match rest with
      | [] => (some (String.mk [c1]), [])
      | c :: r2 => if isWsChar c then (some (String.mk [c1]), r2) else (none, l)
    else (none, l)
  | _ => (none, l)

/-- Modelled from the spec (section 4.3): parse a raw line.  Strips the
completion marker and date, then the priority marker, runs the
registry's extractors in order (due-date, then recurrence) on the
remaining line, then scans the remaining whitespace-separated tokens
for `+project` and `@context` tags; whatever is left, trimmed and
whitespace-collapsed, is the free text.  Absent token classes parse to
absent fields, and the creation date is not part of the spec's line
grammar. -/
def parseItem (l : List Char) : TodoTxtItem :=
  let comp := stripCompletion l
  let prio := stripPriority comp.2.2
  let dueR := extractDue prio.2
  let afterDue := match dueR with
    | some (_, res) => res
    | none => prio.2
  let recR := extractRec afterDue
  let afterRec := match recR with
    | some (_, res) => res
    | none => afterDue
  let toks := splitWs afterRec
  let projects := toks.filterMap (fun tk =>
    match tk with
    | c :: v => if c = '+' then some (String.mk v) else none
    | [] => none)
  let contexts := toks.filterMap (fun tk =>
    match tk with
    | c :: v => if c = '@' then some (String.mk v) else none
    | [] => none)
  let textToks := toks.filter (fun tk =>
    match tk with
    | c :: _ => !(c = '+' || c = '@')
    | [] => true)
  { text := String.mk (joinT textToks),
    projects := if projects = [] then none else some projects,
    contexts := if contexts = [] then none else some contexts,
    priority := prio.1,
    date := none,
    complete := comp.1,
    completed := comp.2.1,
    due := match dueR with
      | some ((d, _), _) => some d
      | none => none,
    dueString := match dueR with
      | some ((_, raw), _) => some (String.mk raw)
      | none => none,
    recurrence := match recR with
      | some ((r, _), _) => some r
      | none => none,
    recString := match recR with
      | some ((_, raw), _) => some raw
      | none => none }

/-- The serialized tokens after the completion and priority markers:
free text, project tags, context tags, `due:` tag, `rec:` tag. -/
def tailToks (t : TodoTxtItem) : List (List Char) :=
  splitWs t.text.data
  ++ (match t.projects with
    | some l => l.map (fun v => '+' :: v.data)
    | none => [])
  ++ (match t.contexts with
    | some l => l.map (fun v => '@' :: v.data)
    | none => [])
  ++ (match t.due with
    | some d => ['d' :: 'u' :: 'e' :: ':' :: dateToStringL d]
    | none => [])
  ++ (match t.recurrence with
    | some r => ['r' :: 'e' :: 'c' :: ':' :: r.render.data]
    | none => [])

/-- Modelled from the spec (section 4.3): the serialized token list, in
order: completion marker and completion date (if complete), priority
marker (if set), free text, project tags, context tags, `due:` tag
(rendered canonically from the date), `rec:` tag (re-derived
canonically from the recurrence value). -/
def serializeToks (t : TodoTxtItem) : List (List Char) :=
  (if t.complete then
    ['x'] :: (match t.completed with
      | some c => [dateToStringL c]
      | none => [])
  else [])
  ++ (match t.priority with
    | some p => [('(' :: p.data ++ [')'])]
    | none => [])
  ++ tailToks t

/-- Modelled from the spec: `TodoTxtItem.toString()`, the canonical
serialized line — the serialized tokens joined by single spaces. -/
def serializeChars (t : TodoTxtItem) : List Char := joinT (serializeToks t)

/-- The completion-marker tokens of the serialized line (the first
summand of `serializeToks`). -/
def compToks (t : TodoTxtItem) : List (List Char) :=
  if t.complete then
    ['x'] :: (match t.completed with
      | some c => [dateToStringL c]
      | none => [])
  else []

/-- The priority-marker token of the serialized line (the second
summand of `serializeToks`). -/
def prioToks (t : TodoTxtItem) : List (List Char) :=
  match t.priority with
  | some p => [('(' :: p.data ++ [')'])]
  | none => []

/-- The free-text, project-tag and context-tag tokens of the
serialized line (the first three summands of `tailToks`). -/
def pre1Toks (t : TodoTxtItem) : List (List Char) :=
  splitWs t.text.data
  ++ (match t.projects with
    | some l => l.map (fun v => '+' :: v.data)
    | none => [])
  ++ (match t.contexts with
    | some l => l.map (fun v => '@' :: v.data)
    | none => [])

/-- The serialized `due:` tag token (fourth summand of `tailToks`). -/
def dueToks (t : TodoTxtItem) : List (List Char) :=
  match t.due with
  | some d => ['d' :: 'u' :: 'e' :: ':' :: dateToStringL d]
  | none => []

/-- The serialized `rec:` tag token (fifth summand of `tailToks`). -/
def recToks (t : TodoTxtItem) : List (List Char) :=
  match t.recurrence with
  | some r => ['r' :: 'e' :: 'c' :: ':' :: r.render.data]
  | none => []

/-! ## Validity of a task's fields (spec, sections 3 and 6)

`validItem` formalizes the spec's data-model constraints on a `Task`'s
fields: `completedDate` present iff `complete`; priority matching
`^[A-Z]$`; project and context values matching `^[^+\s]+$`; valid
calendar dates; a recurrence amount in 1..7 with unit `d`, `w` or `m`;
and free text that is really tag-stripped free text (its tokens are
not project, context, or well-formed due tags). -/

/-- The project/context token pattern `^[^+\s]+$`. -/
def tokenOk (s : String) : Bool :=
  !s.data.isEmpty && s.data.all (fun c => !isWsChar c && !(c = '+'))

/-- The priority pattern `^[A-Z]$`. -/
def priorityOk (s : String) : Bool :=
  match s.data with
  | [c] => isUpperAZ c
  | _ => false

/-- A recurrence value as produced by `RECURRENCE_REGEXP`. -/
def recOk (r : TaskRecurrence) : Bool :=
  1 ≤ r.amount && r.amount ≤ 7 && (r.key = "d" || r.key = "w" || r.key = "m")

/-- Is the token exactly a well-formed due tag `due:YYYY-MM-DD`? -/
def isDueTagTok (tk : List Char) : Bool :=
  match tk with
  | c1 :: c2 :: c3 :: c4 :: rest =>
    c1 = 'd' && c2 = 'u' && c3 = 'e' && c4 = ':' && (parseDate10 rest).isSome
  | _ => false

/-- Is the token exactly `rec:<amount><unit>`? -/
def isRecTagTok (tk : List Char) : Bool :=
  match tk with
  | [c1, c2, c3, c4, a, u] =>
    c1 = 'r' && c2 = 'e' && c3 = 'c' && c4 = ':' && isRecAmt a && isRecUnit u
  | _ => false

/-- Does the token end with a substring `rec:<amount><unit>`?  (Such a
token, followed by whitespace or the line end, matches
`RECURRENCE_TAG_REGEXP`.) -/
def endsRecTag (tk : List Char) : Bool :=
  6 ≤ tk.length && isRecTagTok (tk.drop (tk.length - 6))

/-- A valid free-text token: not a project or context tag, not a
well-formed due tag. -/
def textTokOk (tk : List Char) : Bool :=
  !(tk.head? = some '+') && !(tk.head? = some '@') && !isDueTagTok tk

/-- Validity of an item's fields per the spec's data model. -/
def validItem (t : TodoTxtItem) : Bool :=
  (t.complete == t.completed.isSome)
  && (match t.completed with
    | some d => validDate d
    | none => true)
  && (match t.priority with
    | some p => priorityOk p
    | none => true)
  && (match t.projects with
    | some l => !l.isEmpty && l.all tokenOk
    | none => true)
  && (match t.contexts with
    | some l => !l.isEmpty && l.all tokenOk
    | none => true)
  && (match t.due with
    | some d => validDate d
    | none => true)
  && (match t.recurrence with
    | some r => recOk r
    | none => true)
  && (splitWs t.text.data).all textTokOk

/-- Is the head of the token list a lone `x` (the start of a
completion marker)? -/
def headTokIsX : List (List Char) → Bool
  | t0 :: _ => t0 = ['x']
  | [] => false

/-- Is the token exactly a priority marker `(X)`? -/
def isPrioTok (tk : List Char) : Bool :=
  match tk with
  | [c0, c1, c2] => c0 = '(' && isUpperAZ c1 && c2 = ')'
  | _ => false

/-- Serialization safety: the extra conditions (beyond `validItem`)
under which re-parsing the canonical line cannot misread rendered
fields: no token of the rendered text, project tags, or context tags
ends in a recurrence-tag substring `rec:<amount><unit>`; when the task
is incomplete its line must not begin with a lone `x` token; when it
has no priority the line after the completion part must not begin with
a `(X)`-shaped token. -/
def serialSafe (t : TodoTxtItem) : Bool :=
  ((splitWs t.text.data).all (fun tk => !endsRecTag tk))
  && (match t.projects with
    | some l => l.all (fun v => !endsRecTag ('+' :: v.data))
    | none => true)
  && (match t.contexts with
    | some l => l.all (fun v => !endsRecTag ('@' :: v.data))
    | none => true)
  && (t.complete || !headTokIsX (serializeToks t))
  && (!(t.priority = none) || !(match tailToks t with
    | t0 :: _ => isPrioTok t0
    | [] => false))

/-- Agreement between the parsed due date and its stored string form:
both absent, or the string is the rendering of the date. -/
def dueAgrees (t : TodoTxtItem) : Bool :=
  match t.due, t.dueString with
  | none, none => true
  | some d, some s => s = dateToString d
  | _, _ => false

/-! ## The Task entity (`src/shared/task.ts`) -/

/-- A JS string-or-null value, as carried by `TaskData` fields:
`toTaskData` puts the raw (possibly `null`) `priority` of the item into
the record, and `create`/`update` test fields for truthiness. -/
inductive JStr where
  | str (s : String) : JStr
  | null : JStr
deriving DecidableEq, Repr

/-- JS truthiness of a string-or-null: `null` and `""` are falsy. -/
def JStr.truthy : JStr → Bool
  | .str s => !(s = "")
  | .null => false

/-- The string carried by a `JStr` (only used behind a truthiness
test, so the `null` branch is never reached by the code). -/
def JStr.getS : JStr → String
  | .str s => s
  | .null => ""

/-- The `TaskData` transfer record: `text, project, priority, dueDate,
recurrence`, empty string meaning unset. -/
structure TaskData where
  text : String
  project : JStr
  priority : JStr
  dueDate : JStr
  recurrence : JStr
deriving DecidableEq, Repr

/-- The `Task` entity: a wrapper around a `TodoTxtItem`. -/
structure Task where
  todoItem : TodoTxtItem
deriving DecidableEq, Repr

/-- `Task.parse(text)`: `new TodoTxtItem(text, getExtensions())` — the
`jstodotxt` constructor parses the line. -/
def Task.parse (text : String) : Task := ⟨parseItem text.data⟩

/-- `Task.toString()` — the canonical serialized line of the item. -/
def Task.render (t : Task) : String := String.mk (serializeChars t.todoItem)

/-- `Task.clone()`: serialize, then re-parse. -/
def Task.clone (t : Task) : Task := Task.parse t.render

/-- `Task.create(taskData)`, first steps: parses `taskData.text` as a
todo.txt line (the `TodoTxtItem` constructor parses), sets `date` to
the current date, then overrides projects / priority / due from the
truthy (non-empty) fields of the record. -/
def createBase (now : CalDate) (taskData : TaskData) : TodoTxtItem :=
  let ti0 := parseItem taskData.text.data
  let ti1 := { ti0 with date := some now }
  let ti2 := if taskData.project.truthy then
      { ti1 with projects := some [taskData.project.getS] }
    else ti1
  let ti3 := if taskData.priority.truthy then
      { ti2 with priority := some taskData.priority.getS }
    else ti2
  if taskData.dueDate.truthy then
    { ti3 with
      due := stringToDate taskData.dueDate.getS,
      dueString := some taskData.dueDate.getS }
  else ti3

/-- `Task.create(taskData)` final step: the recurrence override, whose
`TaskRecurrence` constructor throws (`none`) on a truthy but
non-matching recurrence string. -/
def Task.create (now : CalDate) (taskData : TaskData) : Option Task :=
  if taskData.recurrence.truthy then
    match TaskRecurrence.fromString taskData.recurrence.getS with
    | some r => some ⟨{ createBase now taskData with
        recurrence := some r,
        recString := some taskData.recurrence.getS }⟩
    | none => none
  else some ⟨createBase now taskData⟩

/-- `Task.update(taskData)`, first steps: in-place overwrite — the
text is replaced (not re-parsed), truthy fields overwrite, falsy
fields clear (projects and priority are set to `null`, due and
dueString are deleted). -/
def updateBase (t : Task) (taskData : TaskData) : TodoTxtItem :=
  let ti0 := { t.todoItem with text := taskData.text }
  let ti1 := if taskData.project.truthy then
      { ti0 with projects := some [taskData.project.getS] }
    else { ti0 with projects := none }
  let ti2 := if taskData.priority.truthy then
      { ti1 with priority := some taskData.priority.getS }
    else { ti1 with priority := none }
  if taskData.dueDate.truthy then
    { ti2 with
      due := stringToDate taskData.dueDate.getS,
      dueString := some taskData.dueDate.getS }
  else { ti2 with due := none, dueString := none }

/-- `Task.update(taskData)` final step: the recurrence overwrite or
deletion; `none` models the `TypeError` thrown by the `TaskRecurrence`
constructor on a truthy but non-matching recurrence string. -/
def Task.update (t : Task) (taskData : TaskData) : Option Task :=
  if taskData.recurrence.truthy then
    match TaskRecurrence.fromString taskData.recurrence.getS with
    | some r => some ⟨{ updateBase t taskData with
        recurrence := some r,
        recString := some taskData.recurrence.getS }⟩
    | none => none
  else some ⟨{ updateBase t taskData with recurrence := none, recString := none }⟩

/-- `Task.toTaskData()`: a `TaskData` snapshot.  The first project (or
`""`), the rendered due date (or `""`) and the rendered recurrence (or
`""`) are defaulted; the priority is passed through raw, so an unset
priority yields `null`, not `""`. -/
def Task.toTaskData (t : Task) : TaskData :=
  let project := match t.todoItem.projects with
    | some (p :: _) => p
    | _ => ""
  let dueDate := match t.todoItem.due with
    | some d => dateToString d
    | none => ""
  let recurrence := match t.todoItem.recurrence with
    | some r => r.render
    | none => ""
  { text := t.todoItem.text,
    project := .str project,
    priority := match t.todoItem.priority with
      | some p => .str p
      | none => .null,
    dueDate := .str dueDate,
    recurrence := .str recurrence }

/-- `Task.toggleComplete()`: flips `complete`; sets `completed` to the
current date on false-to-true, clears it on true-to-false. -/
def Task.toggleComplete (now : CalDate) (t : Task) : Task :=
  if !t.todoItem.complete then
    ⟨{ t.todoItem with complete := true, completed := some now }⟩
  else
    ⟨{ t.todoItem with complete := false, completed := none }⟩

/-- `Task.postpone()`: returns the (possibly updated) receiver and the
boolean result — `false` and no change when `due` is unset, else the
due date is advanced by one calendar day, its string form re-rendered,
and `true` returned. -/
def Task.postpone (t : Task) : Task × Bool :=
  match t.todoItem.due with
  | none => (t, false)
  | some d =>
    (⟨{ t.todoItem with
        due := some (nextDay d),
        dueString := some (dateToString (nextDay d)) }⟩, true)

/-- `Task.recur()`: returns the receiver (which the method never
writes to) and the optional new task — when both `due` and `rec` are
set, a clone of the receiver with the clone's due date set to
`rec.addTo(due)` and its string form re-rendered; otherwise no new
task (`undefined`). -/
def Task.recur (t : Task) : Task × Option Task :=
  match t.todoItem.due, t.todoItem.recurrence with
  | some d, some r =>
    (t, some ⟨{ (t.clone).todoItem with
        due := some (r.addTo d),
        dueString := some (dateToString (r.addTo d)) }⟩)
  | _, _ => (t, none)

/-! # Lemmas and theorems -/

/-! ### Digit and date round-trip lemmas -/

theorem daysInMonth_le (y m : Nat) : daysInMonth y m ≤ 31 := by
  unfold daysInMonth
  repeat' split
  all_goals omega

theorem daysInMonth_pos (y m : Nat) : 1 ≤ daysInMonth y m := by
  unfold daysInMonth
  repeat' split
  all_goals omega

theorem parseDigit_digitChar {k : Nat} (h : k ≤ 9) :
    parseDigit (digitChar k) = some k := by
  interval_cases k <;> rfl

theorem digitChar_parseDigit {c : Char} {k : Nat} (h : parseDigit c = some k) :
    digitChar k = c ∧ k ≤ 9 := by
  unfold parseDigit at h
  repeat' split at h
  all_goals simp_all
  all_goals subst h
  all_goals first | exact ⟨rfl, by omega⟩ | rfl

theorem parseDigit_not_ws {c : Char} {k : Nat} (h : parseDigit c = some k) :
    c ≠ ' ' ∧ c ≠ '\t' ∧ c ≠ '\n' ∧ c ≠ '\r' := by
  rcases digitChar_parseDigit h with ⟨rfl, hk⟩
  interval_cases k <;> exact ⟨by decide, by decide, by decide, by decide⟩

theorem parseDate10_dateToStringL {d : CalDate} (h : validDate d = true) :
    parseDate10 (dateToStringL d) = some d := by
  obtain ⟨y, m, dy⟩ := d
  simp only [validDate, Bool.and_eq_true, decide_eq_true_eq] at h
  obtain ⟨⟨⟨⟨hm1, hm2⟩, hd1⟩, hd2⟩, hy⟩ := h
  have hy3 : y / 1000 ≤ 9 := by omega
  have hy2 : y / 100 % 10 ≤ 9 := by omega
  have hy1 : y / 10 % 10 ≤ 9 := by omega
  have hy0 : y % 10 ≤ 9 := by omega
  have hmh : m / 10 ≤ 9 := by omega
  have hml : m % 10 ≤ 9 := by omega
  have hdm := daysInMonth_le y m
  have hdh : dy / 10 ≤ 9 := by omega
  have hdl : dy % 10 ≤ 9 := by omega
  simp only [dateToStringL, pad4, pad2, List.cons_append, List.nil_append, parseDate10,
    parseDigit_digitChar hy3, parseDigit_digitChar hy2, parseDigit_digitChar hy1,
    parseDigit_digitChar hy0, parseDigit_digitChar hmh, parseDigit_digitChar hml,
    parseDigit_digitChar hdh, parseDigit_digitChar hdl]
  have ey : 1000 * (y / 1000) + 100 * (y / 100 % 10) + 10 * (y / 10 % 10) + y % 10 = y := by
    omega
  have em : 10 * (m / 10) + m % 10 = m := by omega
  have ed : 10 * (dy / 10) + dy % 10 = dy := by omega
  rw [if_pos (by decide)]
  simp only [ey, em, ed]
  rw [if_pos (by simp only [Bool.and_eq_true, decide_eq_true_eq]; omega)]

theorem dateToStringL_parseDate10 {l : List Char} {d : CalDate}
    (h : parseDate10 l = some d) : dateToStringL d = l ∧ validDate d = true := by
  match l, h with
  | [y1, y2, y3, y4, h1, n1, n2, h2, e1, e2], h => ?_
  simp only [parseDate10] at h
  split at h
  case isFalse => exact absurd h (by simp)
  case isTrue hh =>
    simp only [Bool.and_eq_true, decide_eq_true_eq] at hh
    obtain ⟨rfl, rfl⟩ := hh
    split at h
    case h_2 => exact absurd h (by simp)
    case h_1 a b c dd m1 m2 k1 k2 ha hb hc hd hm1 hm2 hk1 hk2 =>
      obtain ⟨rfl, ha9⟩ := digitChar_parseDigit ha
      obtain ⟨rfl, hb9⟩ := digitChar_parseDigit hb
      obtain ⟨rfl, hc9⟩ := digitChar_parseDigit hc
      obtain ⟨rfl, hd9⟩ := digitChar_parseDigit hd
      obtain ⟨rfl, hm19⟩ := digitChar_parseDigit hm1
      obtain ⟨rfl, hm29⟩ := digitChar_parseDigit hm2
      obtain ⟨rfl, hk19⟩ := digitChar_parseDigit hk1
      obtain ⟨rfl, hk29⟩ := digitChar_parseDigit hk2
      split at h
      case isFalse => exact absurd h (by simp)
      case isTrue hrange =>
        simp only [Option.some.injEq] at h
        subst h
        simp only [Bool.and_eq_true, decide_eq_true_eq] at hrange
        constructor
        · simp only [dateToStringL, pad4, pad2, List.cons_append, List.nil_append,
            List.cons.injEq, and_true, true_and]
          refine ⟨?_, ?_, ?_, ?_, ?_, ?_, ?_, ?_⟩ <;> · congr 1; omega
        · simp only [validDate, Bool.and_eq_true, decide_eq_true_eq]
          refine ⟨⟨⟨⟨?_, ?_⟩, ?_⟩, ?_⟩, ?_⟩ <;> omega

theorem parseDate10_length {l : List Char} {d : CalDate}
    (h : parseDate10 l = some d) : l.length = 10 := by
  match l, h with
  | [y1, y2, y3, y4, h1, n1, n2, h2, e1, e2], h => rfl

theorem splitWsAux_wsfree {t : List Char} (ht : t.all (fun c => !isWsChar c) = true) :
    ∀ rest acc, splitWsAux (t ++ rest) acc = splitWsAux rest (t.reverse ++ acc) := by
  induction t with
  | nil => intro rest acc; simp
  | cons c cs ih =>
    intro rest acc
    simp only [List.all_cons, Bool.and_eq_true, Bool.not_eq_true'] at ht
    simp only [List.cons_append, splitWsAux, ht.1, Bool.false_eq_true, if_false, List.append_eq]
    rw [ih ht.2]
    congr 1
    simp

theorem splitWs_single {t : List Char} (ht : goodTok t = true) :
    splitWs t = [t] := by
  simp only [goodTok, Bool.and_eq_true, Bool.not_eq_true', List.isEmpty_eq_false_iff_exists_mem]
    at ht
  obtain ⟨hne, hws⟩ := ht
  have := splitWsAux_wsfree hws [] []
  simp only [List.append_nil] at this
  unfold splitWs
  rw [this]
  simp only [splitWsAux, List.append_nil]
  rw [if_neg]
  · simp
  · simp only [ne_eq, List.reverse_eq_nil_iff]
    intro hnil
    rcases hne with ⟨x, hx⟩
    simp [hnil] at hx

theorem splitWs_join {ts : List (List Char)} (h : ∀ t ∈ ts, goodTok t = true) :
    splitWs (joinT ts) = ts := by
  induction ts with
  | nil => rfl
  | cons t ts ih =>
    rcases ts with _ | ⟨t2, ts2⟩
    · exact splitWs_single (h t (by simp))
    · have ht := h t (by simp)
      simp only [goodTok, Bool.and_eq_true, Bool.not_eq_true',
        List.isEmpty_eq_false_iff_exists_mem] at ht
      obtain ⟨hne, hws⟩ := ht
      show splitWsAux (t ++ ' ' :: joinT (t2 :: ts2)) [] = t :: t2 :: ts2
      rw [splitWsAux_wsfree hws]
      simp only [List.append_nil, splitWsAux, isWsChar]
      rw [if_pos (by simp), if_neg]
      · have : splitWsAux (joinT (t2 :: ts2)) [] = t2 :: ts2 :=
          ih (fun x hx => h x (by simp [hx]))
        simp [this]
      · simp only [ne_eq, List.reverse_eq_nil_iff]
        intro hnil
        rcases hne with ⟨x, hx⟩
        simp [hnil] at hx

theorem splitWs_append_ws (l : List Char) : splitWs (l ++ [' ']) = splitWs l := by
  suffices h : ∀ acc, splitWsAux (l ++ [' ']) acc = splitWsAux l acc from h []
  induction l with
  | nil => intro acc; simp [splitWsAux, isWsChar]
  | cons c cs ih =>
    intro acc
    simp only [List.cons_append, splitWsAux, List.append_eq]
    split
    · rw [ih]
    · rw [ih]


/-! ## Helper lemmas about the operations -/

theorem stripCompletion_inv (l : List Char) :
    (stripCompletion l).1 = (stripCompletion l).2.1.isSome := by
  unfold stripCompletion
  repeat' split
  all_goals rfl

theorem parseItem_complete (l : List Char) :
    (parseItem l).complete = (stripCompletion l).1 := rfl

theorem parseItem_completed (l : List Char) :
    (parseItem l).completed = (stripCompletion l).2.1 := rfl

theorem createBase_completion (now : CalDate) (d : TaskData) :
    (createBase now d).complete = (parseItem d.text.data).complete ∧
    (createBase now d).completed = (parseItem d.text.data).completed := by
  unfold createBase
  repeat' split
  all_goals exact ⟨rfl, rfl⟩

theorem create_completion {now : CalDate} {d : TaskData} {t : Task}
    (h : Task.create now d = some t) :
    t.todoItem.complete = (parseItem d.text.data).complete ∧
    t.todoItem.completed = (parseItem d.text.data).completed := by
  unfold Task.create at h
  split at h
  · split at h
    · rename_i r hr
      simp only [Option.some.injEq] at h
      subst h
      exact createBase_completion now d
    · exact absurd h (by simp)
  · simp only [Option.some.injEq] at h
    subst h
    exact createBase_completion now d

/-! ## Token-chain lemmas -/

theorem splitWs_good (l : List Char) : ∀ tk ∈ splitWs l, goodTok tk = true := by
  suffices h : ∀ acc, acc.all (fun c => !isWsChar c) = true →
      ∀ tk ∈ splitWsAux l acc, goodTok tk = true by
    exact h [] rfl
  induction l with
  | nil =>
    intro acc hacc tk htk
    simp only [splitWsAux] at htk
    split at htk
    · exact absurd htk (by simp)
    · rename_i hne
      simp only [List.mem_singleton] at htk
      subst htk
      simp only [goodTok, Bool.and_eq_true, Bool.not_eq_true']
      constructor
      · simpa [List.isEmpty_iff] using fun h2 => hne (by simpa using congrArg List.reverse h2)
      · simpa using hacc
  | cons c cs ih =>
    intro acc hacc tk htk
    simp only [splitWsAux] at htk
    split at htk
    · rename_i hws
      simp only [List.mem_append] at htk
      rcases htk with htk | htk
      · split at htk
        · exact absurd htk (by simp)
        · rename_i hne
          simp only [List.mem_singleton] at htk
          subst htk
          simp only [goodTok, Bool.and_eq_true, Bool.not_eq_true']
          constructor
          · simpa [List.isEmpty_iff] using
              fun h2 => hne (by simpa using congrArg List.reverse h2)
          · simpa using hacc
      · exact ih [] rfl tk htk
    · rename_i hws
      refine ih (c :: acc) ?_ tk htk
      simp only [List.all_cons, Bool.and_eq_true, Bool.not_eq_true']
      exact ⟨by simpa using hws, hacc⟩

theorem joinT_append (A B : List (List Char)) (hB : B ≠ []) :
    joinT (A ++ B) = prependToks A (joinT B) := by
  induction A with
  | nil => rfl
  | cons t0 A2 ih =>
    have hne : A2 ++ B ≠ [] := by
      simp only [ne_eq, List.append_eq_nil]
      rintro ⟨-, rfl⟩
      exact hB rfl
    rcases hAB : A2 ++ B with _ | ⟨x, xs⟩
    · exact absurd hAB hne
    · show joinT (t0 :: (A2 ++ B)) = _
      rw [hAB]
      show t0 ++ ' ' :: joinT (x :: xs) = prependToks (t0 :: A2) (joinT B)
      rw [← hAB, ih]
      rfl

theorem joinT_concat (ps : List (List Char)) (tl : List Char) :
    joinT (ps ++ [tl]) = prependToks ps tl :=
  joinT_append ps [tl] (by simp)

theorem splitWs_prependToks (pre : List (List Char)) (inner : List Char)
    (hg : ∀ tk ∈ pre, goodTok tk = true) :
    splitWs (prependToks pre inner) = pre ++ splitWs inner := by
  induction pre with
  | nil => rfl
  | cons t0 pre2 ih =>
    have hg0 := hg t0 (by simp)
    simp only [goodTok, Bool.and_eq_true, Bool.not_eq_true',
      List.isEmpty_eq_false_iff_exists_mem] at hg0
    show splitWs (t0 ++ ' ' :: prependToks pre2 inner) = _
    unfold splitWs
    rw [splitWsAux_wsfree hg0.2]
    simp only [List.append_nil, splitWsAux, isWsChar]
    rw [if_pos (by simp), if_neg]
    · have := ih (fun tk htk => hg tk (by simp [htk]))
      unfold splitWs at this
      simp [this]
    · simp only [ne_eq, List.reverse_eq_nil_iff]
      intro hnil
      rcases hg0.1 with ⟨x, hx⟩
      simp [hnil] at hx

/-! ## Due-extractor lemmas -/

theorem scanE_step_none {α : Type} (m : Bool → List Char → Option (α × List Char))
    (pw : Bool) (c : Char) (cs : List Char) (h : m pw (c :: cs) = none) :
    scanE m pw (c :: cs)
      = (scanE m (isWsChar c) cs).map (fun p => (p.1, c :: p.2)) := by
  conv_lhs => unfold scanE
  rw [h]

theorem scanE_step_some {α : Type} (m : Bool → List Char → Option (α × List Char))
    (pw : Bool) (c : Char) (cs : List Char) {x : α × List Char}
    (h : m pw (c :: cs) = some x) :
    scanE m pw (c :: cs) = some x := by
  conv_lhs => unfold scanE
  rw [h]

theorem parseDate10_not_ws {l : List Char} {d : CalDate}
    (h : parseDate10 l = some d) : ∀ c ∈ l, isWsChar c = false := by
  match l, h with
  | [y1, y2, y3, y4, h1, n1, n2, h2, e1, e2], h => ?_
  simp only [parseDate10] at h
  split at h
  case isFalse => exact absurd h (by simp)
  case isTrue hh =>
    simp only [Bool.and_eq_true, decide_eq_true_eq] at hh
    obtain ⟨rfl, rfl⟩ := hh
    split at h
    case h_2 => exact absurd h (by simp)
    case h_1 a b c dd m1 m2 k1 k2 ha hb hc hd hm1 hm2 hk1 hk2 =>
      intro ch hch
      have hws : ∀ (x : Char) (k : Nat), parseDigit x = some k → isWsChar x = false := by
        intro x k hx
        obtain ⟨w1, w2, w3, w4⟩ := parseDigit_not_ws hx
        simp [isWsChar, w1, w2, w3, w4]
      simp only [List.mem_cons, List.not_mem_nil, or_false] at hch
      rcases hch with rfl | rfl | rfl | rfl | rfl | rfl | rfl | rfl | rfl | rfl
      exacts [hws _ _ ha, hws _ _ hb, hws _ _ hc, hws _ _ hd, by decide,
        hws _ _ hm1, hws _ _ hm2, by decide, hws _ _ hk1, hws _ _ hk2]

theorem dueMatch_some_shape {pw : Bool} {l : List Char} {x}
    (h : dueMatch pw l = some x) :
    pw = true ∧ ∃ rest, l = 'd' :: 'u' :: 'e' :: ':' :: rest
      ∧ (∃ d0, parseDate10 (rest.take 10) = some d0)
      ∧ (rest.drop 10 = [] ∨ ∃ c r2, rest.drop 10 = c :: r2 ∧ isWsChar c = true) := by
  unfold dueMatch at h
  split at h
  case isFalse => exact absurd h (by simp)
  case isTrue hpw =>
    refine ⟨hpw, ?_⟩
    split at h
    case h_2 => exact absurd h (by simp)
    case h_1 c1 c2 c3 c4 rest =>
      split at h
      case isFalse => exact absurd h (by simp)
      case isTrue hc =>
        simp only [Bool.and_eq_true, decide_eq_true_eq] at hc
        obtain ⟨⟨⟨rfl, rfl⟩, rfl⟩, rfl⟩ := hc
        split at h
        case h_2 => exact absurd h (by simp)
        case h_1 d0 hd0 =>
          refine ⟨rest, rfl, ⟨d0, hd0⟩, ?_⟩
          split at h
          case h_1 hdrop => exact Or.inl hdrop
          case h_2 c r2 hdrop =>
            split at h
            case isTrue hws => exact Or.inr ⟨c, r2, hdrop, hws⟩
            case isFalse => exact absurd h (by simp)

theorem dateToStringL_length (d : CalDate) : (dateToStringL d).length = 10 := by
  simp [dateToStringL, pad4, pad2]

theorem dueMatch_head_nil {d : CalDate} (hd : validDate d = true) :
    dueMatch true ('d' :: 'u' :: 'e' :: ':' :: dateToStringL d)
      = some ((d, dateToStringL d), []) := by
  unfold dueMatch
  rw [if_pos rfl]
  show (if ('d' = 'd' && 'u' = 'u' && 'e' = 'e' && ':' = ':') = true then
      match parseDate10 ((dateToStringL d).take 10) with
      | some d2 =>
        match (dateToStringL d).drop 10 with
        | [] => some ((d2, (dateToStringL d).take 10), [])
        | c :: r2 => if isWsChar c = true
            then some ((d2, (dateToStringL d).take 10), r2) else none
      | none => none
    else none) = _
  rw [if_pos (by decide)]
  have hlen := dateToStringL_length d
  have htake : (dateToStringL d).take 10 = dateToStringL d := by
    rw [← hlen]
    exact List.take_length _
  have hdrop : (dateToStringL d).drop 10 = [] := by
    rw [← hlen]
    exact List.drop_length _
  rw [htake, hdrop, parseDate10_dateToStringL hd]

theorem dueMatch_head_ws {d : CalDate} (hd : validDate d = true) (r : List Char) :
    dueMatch true ('d' :: 'u' :: 'e' :: ':' :: (dateToStringL d ++ ' ' :: r))
      = some ((d, dateToStringL d), r) := by
  unfold dueMatch
  rw [if_pos rfl]
  show (if ('d' = 'd' && 'u' = 'u' && 'e' = 'e' && ':' = ':') = true then
      match parseDate10 ((dateToStringL d ++ ' ' :: r).take 10) with
      | some d2 =>
        match (dateToStringL d ++ ' ' :: r).drop 10 with
        | [] => some ((d2, (dateToStringL d ++ ' ' :: r).take 10), [])
        | c :: r2 => if isWsChar c = true
            then some ((d2, (dateToStringL d ++ ' ' :: r).take 10), r2) else none
      | none => none
    else none) = _
  rw [if_pos (by decide)]
  have hlen := dateToStringL_length d
  have htake : (dateToStringL d ++ ' ' :: r).take 10 = dateToStringL d := by
    rw [← hlen]
    exact List.take_left _ _
  have hdrop : (dateToStringL d ++ ' ' :: r).drop 10 = ' ' :: r := by
    rw [← hlen]
    exact List.drop_left _ _
  rw [htake, hdrop, parseDate10_dateToStringL hd]
  rfl

theorem dueMatch_tok_none {tok sfx : List Char}
    (hg : goodTok tok = true) (hnd : isDueTagTok tok = false)
    (hsfx : sfx = [] ∨ ∃ r, sfx = ' ' :: r) :
    dueMatch true (tok ++ sfx) = none := by
  cases hm : dueMatch true (tok ++ sfx) with
  | none => rfl
  | some x =>
    exfalso
    obtain ⟨-, rest, he, ⟨d0, hd0⟩, hbd⟩ := dueMatch_some_shape hm
    simp only [goodTok, Bool.and_eq_true, Bool.not_eq_true'] at hg
    rcases tok with _ | ⟨c1, _ | ⟨c2, _ | ⟨c3, _ | ⟨c4, tok4⟩⟩⟩⟩
    · simp at hg
    · rcases hsfx with rfl | ⟨r, rfl⟩
      · simp at he
      · simp only [List.cons_append, List.nil_append, List.cons.injEq] at he
        exact absurd he.2.1 (by decide)
    · rcases hsfx with rfl | ⟨r, rfl⟩
      · simp at he
      · simp only [List.cons_append, List.nil_append, List.cons.injEq] at he
        exact absurd he.2.2.1 (by decide)
    · rcases hsfx with rfl | ⟨r, rfl⟩
      · simp at he
      · simp only [List.cons_append, List.nil_append, List.cons.injEq] at he
        exact absurd he.2.2.2.1 (by decide)
    · simp only [List.cons_append, List.cons.injEq] at he
      obtain ⟨rfl, rfl, rfl, rfl, hrest⟩ := he
      subst hrest
      have hwsf : ∀ ch ∈ tok4, isWsChar ch = false := by
        intro ch hch
        have := hg.2
        simp only [List.all_cons, List.all_eq_true, Bool.and_eq_true,
          Bool.not_eq_true'] at this
        exact this.2.2.2.2 ch hch
      rcases Nat.lt_or_ge tok4.length 10 with hlen | hlen
      · rcases hsfx with rfl | ⟨r, rfl⟩
        · simp only [List.append_nil] at hd0
          have h10 := parseDate10_length hd0
          rw [List.length_take] at h10
          omega
        · have hmem : ' ' ∈ (tok4 ++ ' ' :: r).take 10 := by
            rw [List.take_append_eq_append_take]
            refine List.mem_append.mpr (Or.inr ?_)
            rcases h10 : 10 - tok4.length with _ | n
            · omega
            · simp
          have := parseDate10_not_ws hd0 ' ' hmem
          simp [isWsChar] at this
      · have htake : (tok4 ++ sfx).take 10 = tok4.take 10 := by
          rw [List.take_append_eq_append_take]
          have h0 : 10 - tok4.length = 0 := by omega
          simp [h0]
        rcases Nat.eq_or_lt_of_le hlen with heq | hlt
        · have htok : tok4.take 10 = tok4 := by
            rw [heq]
            exact List.take_length _
          rw [htake, htok] at hd0
          have : isDueTagTok ('d' :: 'u' :: 'e' :: ':' :: tok4) = true := by
            simp [isDueTagTok, hd0]
          rw [this] at hnd
          exact absurd hnd (by simp)
        · have hdrop : (tok4 ++ sfx).drop 10 = tok4.drop 10 ++ sfx := by
            rw [List.drop_append_eq_append_drop]
            have h0 : 10 - tok4.length = 0 := by omega
            simp [h0]
          rcases hd4 : tok4.drop 10 with _ | ⟨y, ys⟩
          · have : tok4.length ≤ 10 := by
              have := congrArg List.length hd4
              simp only [List.length_drop, List.length_nil] at this
              omega
            omega
          · rcases hbd with hbd | ⟨c, r2, hceq, hcws⟩
            · rw [hdrop, hd4] at hbd
              simp at hbd
            · rw [hdrop, hd4] at hceq
              simp only [List.cons_append, List.cons.injEq] at hceq
              have hy : y ∈ tok4 := List.drop_subset 10 tok4 (by rw [hd4]; simp)
              rw [← hceq.1] at hcws
              rw [hwsf y hy] at hcws
              exact absurd hcws (by simp)

theorem dueMatch_first_char {c : Char} {cs : List Char} (hc : ¬c = 'd') (pw : Bool) :
    dueMatch pw (c :: cs) = none := by
  cases hm : dueMatch pw (c :: cs) with
  | none => rfl
  | some x =>
    obtain ⟨-, rest, he, -, -⟩ := dueMatch_some_shape hm
    simp only [List.cons.injEq] at he
    exact absurd he.1 hc

theorem scanE_due_wsfree (cs rest : List Char)
    (hcs : cs.all (fun c => !isWsChar c) = true) :
    scanE dueMatch false (cs ++ ' ' :: rest)
      = (scanE dueMatch true rest).map (fun p => (p.1, cs ++ ' ' :: p.2)) := by
  induction cs with
  | nil =>
    rw [List.nil_append, scanE_step_none dueMatch false ' ' rest rfl]
    rfl
  | cons c cs2 ih =>
    simp only [List.all_cons, Bool.and_eq_true, Bool.not_eq_true'] at hcs
    rw [List.cons_append, scanE_step_none dueMatch false c _ rfl, hcs.1, ih hcs.2]
    cases scanE dueMatch true rest with
    | none => rfl
    | some p => rfl

theorem scanE_due_wsfree_none (cs : List Char)
    (hcs : cs.all (fun c => !isWsChar c) = true) :
    scanE dueMatch false cs = none := by
  induction cs with
  | nil => rfl
  | cons c cs2 ih =>
    simp only [List.all_cons, Bool.and_eq_true, Bool.not_eq_true'] at hcs
    rw [scanE_step_none dueMatch false c cs2 rfl, hcs.1, ih hcs.2]
    rfl

theorem extractDue_skip_tok (tok rest : List Char) (hg : goodTok tok = true)
    (hnd : dueMatch true (tok ++ ' ' :: rest) = none) :
    scanE dueMatch true (tok ++ ' ' :: rest)
      = (scanE dueMatch true rest).map (fun p => (p.1, tok ++ ' ' :: p.2)) := by
  rcases tok with _ | ⟨c0, cs⟩
  · simp [goodTok] at hg
  · simp only [goodTok, List.all_cons, Bool.and_eq_true, Bool.not_eq_true'] at hg
    rw [List.cons_append, scanE_step_none dueMatch true c0 _ (by
      simpa using hnd), hg.2.1, scanE_due_wsfree cs rest hg.2.2]
    cases scanE dueMatch true rest with
    | none => rfl
    | some p => rfl

theorem extractDue_single_tok (tok : List Char) (hg : goodTok tok = true)
    (hnd : dueMatch true tok = none) :
    extractDue tok = none := by
  rcases tok with _ | ⟨c0, cs⟩
  · rfl
  · simp only [goodTok, List.all_cons, Bool.and_eq_true, Bool.not_eq_true'] at hg
    unfold extractDue
    rw [scanE_step_none dueMatch true c0 cs hnd, hg.2.1,
      scanE_due_wsfree_none cs hg.2.2]
    rfl

theorem extractDue_prepend (pre : List (List Char)) (inner : List Char)
    (hg : ∀ tk ∈ pre, goodTok tk = true)
    (hnd : ∀ tk ∈ pre, ∀ sfx, (sfx = [] ∨ ∃ r, sfx = ' ' :: r) →
      dueMatch true (tk ++ sfx) = none) :
    extractDue (prependToks pre inner)
      = (extractDue inner).map (fun p => (p.1, prependToks pre p.2)) := by
  induction pre with
  | nil =>
    unfold extractDue
    show scanE dueMatch true inner = _
    cases scanE dueMatch true inner with
    | none => rfl
    | some p => rfl
  | cons t0 pre2 ih =>
    show extractDue (t0 ++ ' ' :: prependToks pre2 inner) = _
    unfold extractDue
    rw [extractDue_skip_tok t0 _ (hg t0 (by simp))
      (hnd t0 (by simp) _ (Or.inr ⟨_, rfl⟩))]
    have ih2 := ih (fun tk htk => hg tk (by simp [htk]))
      (fun tk htk => hnd tk (by simp [htk]))
    unfold extractDue at ih2
    rw [ih2]
    cases scanE dueMatch true inner with
    | none => rfl
    | some p => rfl

/-! ## Substring lemmas for the recurrence extractor -/

theorem isPrefixOf_append_self (pat r : List Char) :
    pat.isPrefixOf (pat ++ r) = true := by
  induction pat with
  | nil => cases r <;> simp [List.isPrefixOf]
  | cons p ps ih => simp [List.isPrefixOf, ih]

theorem containsSeq_nil (l : List Char) : containsSeq [] l = true := by
  cases l <;> simp [containsSeq, List.isPrefixOf]

theorem containsSeq_append_pat (pat s1 r : List Char) (hne : pat ≠ []) :
    containsSeq pat (s1 ++ (pat ++ r)) = true := by
  induction s1 with
  | nil =>
    simp only [List.nil_append]
    cases pat with
    | nil => exact absurd rfl hne
    | cons p ps =>
      have hpre := isPrefixOf_append_self (p :: ps) r
      simp only [List.cons_append] at hpre
      simp [containsSeq, hpre]
  | cons c cs ih => simp [containsSeq, ih]

theorem isPrefixOf_wsfree {pat : List Char} (hp : ∀ c ∈ pat, isWsChar c = false) :
    ∀ {s t : List Char}, pat.isPrefixOf (s ++ ' ' :: t) = true →
      pat.isPrefixOf s = true := by
  induction pat with
  | nil => intro s t _; cases s <;> simp [List.isPrefixOf]
  | cons p ps ih =>
    intro s t h
    cases s with
    | nil =>
      exfalso
      simp only [List.nil_append, List.isPrefixOf, Bool.and_eq_true, beq_iff_eq] at h
      have := hp p (by simp)
      rw [h.1] at this
      simp [isWsChar] at this
    | cons a as =>
      simp only [List.cons_append, List.isPrefixOf, Bool.and_eq_true] at h ⊢
      exact ⟨h.1, ih (fun c hc => hp c (by simp [hc])) h.2⟩

theorem containsSeq_ws_split {pat : List Char} (hp : ∀ c ∈ pat, isWsChar c = false) :
    ∀ (s t : List Char), containsSeq pat (s ++ ' ' :: t) = true →
      containsSeq pat s = true ∨ containsSeq pat t = true := by
  intro s t
  induction s with
  | nil =>
    intro h
    simp only [List.nil_append, containsSeq, Bool.or_eq_true] at h
    rcases h with h | h
    · cases pat with
      | nil => exact Or.inl (containsSeq_nil [])
      | cons p ps =>
        exfalso
        simp only [List.isPrefixOf, Bool.and_eq_true, beq_iff_eq] at h
        have := hp p (by simp)
        rw [h.1] at this
        simp [isWsChar] at this
    · exact Or.inr h
  | cons c cs ih =>
    intro h
    simp only [List.cons_append, containsSeq, Bool.or_eq_true] at h ⊢
    rcases h with h | h
    · refine Or.inl (Or.inl ?_)
      have h2 : pat.isPrefixOf ((c :: cs) ++ ' ' :: t) = true := by
        simpa using h
      exact isPrefixOf_wsfree hp h2
    · rcases ih h with h2 | h2
      · exact Or.inl (Or.inr h2)
      · exact Or.inr h2

theorem recMatch_some_shape {l : List Char} {x} (h : recMatch l = some x) :
    ∃ a u rest, l = 'r' :: 'e' :: 'c' :: ':' :: a :: u :: rest
      ∧ isRecAmt a = true ∧ isRecUnit u = true := by
  rcases l with _ | ⟨c1, _ | ⟨c2, _ | ⟨c3, _ | ⟨c4, _ | ⟨a, _ | ⟨u, rest⟩⟩⟩⟩⟩⟩ <;>
    simp only [recMatch] at h
  all_goals try exact Option.noConfusion h
  split at h
  case isTrue hc =>
    simp only [Bool.and_eq_true, decide_eq_true_eq] at hc
    obtain ⟨⟨⟨⟨⟨rfl, rfl⟩, rfl⟩, rfl⟩, ha⟩, hu⟩ := hc
    exact ⟨a, u, rest, rfl, ha, hu⟩
  case isFalse => exact absurd h (by simp)

theorem recMatch_ws_none {s rest : List Char} (hne : s ≠ [])
    (hnr : containsSeq ['r', 'e', 'c', ':'] s = false) :
    recMatch (s ++ ' ' :: rest) = none := by
  cases hm : recMatch (s ++ ' ' :: rest) with
  | none => rfl
  | some x =>
    exfalso
    obtain ⟨a, u, r2, he, _, _⟩ := recMatch_some_shape hm
    rcases s with _ | ⟨c1, _ | ⟨c2, _ | ⟨c3, _ | ⟨c4, s4⟩⟩⟩⟩
    · exact hne rfl
    · simp only [List.cons_append, List.nil_append, List.cons.injEq] at he
      exact absurd he.2.1 (by decide)
    · simp only [List.cons_append, List.nil_append, List.cons.injEq] at he
      exact absurd he.2.2.1 (by decide)
    · simp only [List.cons_append, List.nil_append, List.cons.injEq] at he
      exact absurd he.2.2.2.1 (by decide)
    · simp only [List.cons_append, List.cons.injEq] at he
      obtain ⟨rfl, rfl, rfl, rfl, -⟩ := he
      have hcs := containsSeq_append_pat ['r', 'e', 'c', ':'] [] s4 (by simp)
      simp only [List.nil_append, List.cons_append] at hcs
      rw [hcs] at hnr
      exact absurd hnr (by simp)

theorem scanE_rec_pw (pw1 pw2 : Bool) (l : List Char) :
    scanE (fun _ => recMatch) pw1 l = scanE (fun _ => recMatch) pw2 l := by
  cases l <;> rfl

theorem extractRec_none_of_noRec {l : List Char}
    (h : containsSeq ['r', 'e', 'c', ':'] l = false) : extractRec l = none := by
  induction l with
  | nil => rfl
  | cons c cs ih =>
    simp only [containsSeq, Bool.or_eq_false_iff] at h
    have h0 : recMatch (c :: cs) = none := by
      cases hm : recMatch (c :: cs) with
      | none => rfl
      | some x =>
        exfalso
        obtain ⟨a, u, rest, he, _, _⟩ := recMatch_some_shape hm
        have hpre := isPrefixOf_append_self ['r', 'e', 'c', ':'] (a :: u :: rest)
        rw [show ['r', 'e', 'c', ':'] ++ (a :: u :: rest)
            = 'r' :: 'e' :: 'c' :: ':' :: a :: u :: rest from rfl, ← he] at hpre
        rw [hpre] at h
        exact absurd h.1 (by simp)
    unfold extractRec
    rw [scanE_step_none _ _ _ _ h0, scanE_rec_pw (isWsChar c) true]
    have ih2 := ih h.2
    unfold extractRec at ih2
    rw [ih2]
    rfl

theorem extractRec_split_none {s t : List Char}
    (hs : containsSeq ['r', 'e', 'c', ':'] s = false)
    (ht : containsSeq ['r', 'e', 'c', ':'] t = false) :
    extractRec (s ++ ' ' :: t) = none := by
  apply extractRec_none_of_noRec
  cases hc : containsSeq ['r', 'e', 'c', ':'] (s ++ ' ' :: t) with
  | false => rfl
  | true =>
    exfalso
    rcases containsSeq_ws_split (by decide) s t hc with h | h
    · rw [h] at hs
      exact absurd hs (by simp)
    · rw [h] at ht
      exact absurd ht (by simp)

theorem extractRec_canonical (s t : List Char) (a u : Char)
    (hs : containsSeq ['r', 'e', 'c', ':'] s = false)
    (ha : isRecAmt a = true) (hu : isRecUnit u = true) :
    extractRec (s ++ ' ' :: 'r' :: 'e' :: 'c' :: ':' :: a :: u :: ' ' :: t)
      = some ((mkRec a u, String.mk [a, u]), s ++ ' ' :: t) := by
  induction s with
  | nil =>
    have h0 : recMatch (' ' :: 'r' :: 'e' :: 'c' :: ':' :: a :: u :: ' ' :: t) = none := by
      cases hm : recMatch (' ' :: 'r' :: 'e' :: 'c' :: ':' :: a :: u :: ' ' :: t) with
      | none => rfl
      | some x =>
        exfalso
        obtain ⟨a2, u2, r2, he, _, _⟩ := recMatch_some_shape hm
        simp only [List.cons.injEq] at he
        exact absurd he.1 (by decide)
    have h1 : recMatch ('r' :: 'e' :: 'c' :: ':' :: a :: u :: ' ' :: t)
        = some ((mkRec a u, String.mk [a, u]), t) := by
      simp [recMatch, ha, hu, isWsChar]
    show scanE (fun _ => recMatch) true _ = _
    rw [List.nil_append, scanE_step_none _ _ _ _ h0, scanE_rec_pw _ true,
      scanE_step_some _ _ _ _ h1]
    rfl
  | cons c cs ih =>
    simp only [containsSeq, Bool.or_eq_false_iff] at hs
    have h0 : recMatch ((c :: cs)
          ++ ' ' :: ('r' :: 'e' :: 'c' :: ':' :: a :: u :: ' ' :: t)) = none :=
      recMatch_ws_none (by simp) (by simp [containsSeq, hs.1, hs.2])
    simp only [List.cons_append] at h0
    show scanE (fun _ => recMatch) true _ = _
    rw [List.cons_append, scanE_step_none _ _ _ _ h0, scanE_rec_pw _ true]
    have ih2 := ih hs.2
    unfold extractRec at ih2
    rw [ih2]
    rfl

/-! ## Recurrence-extractor token lemmas -/

theorem recMatch_some_boundary {l : List Char} {x} (h : recMatch l = some x) :
    ∃ a u rest, l = 'r' :: 'e' :: 'c' :: ':' :: a :: u :: rest
      ∧ isRecAmt a = true ∧ isRecUnit u = true
      ∧ (rest = [] ∨ ∃ c r2, rest = c :: r2 ∧ isWsChar c = true) := by
  rcases l with _ | ⟨c1, _ | ⟨c2, _ | ⟨c3, _ | ⟨c4, _ | ⟨a, _ | ⟨u, rest⟩⟩⟩⟩⟩⟩ <;>
    simp only [recMatch] at h
  all_goals try exact Option.noConfusion h
  split at h
  case isTrue hc =>
    simp only [Bool.and_eq_true, decide_eq_true_eq] at hc
    obtain ⟨⟨⟨⟨⟨rfl, rfl⟩, rfl⟩, rfl⟩, ha⟩, hu⟩ := hc
    refine ⟨a, u, rest, rfl, ha, hu, ?_⟩
    split at h
    · exact Or.inl rfl
    · rename_i c r2
      split at h
      · rename_i hws
        exact Or.inr ⟨c, r2, rfl, hws⟩
      · exact absurd h (by simp)
  case isFalse => exact absurd h (by simp)

theorem recMatch_head_ne {c : Char} {cs : List Char} (hc : ¬c = 'r') :
    recMatch (c :: cs) = none := by
  cases hm : recMatch (c :: cs) with
  | none => rfl
  | some x =>
    obtain ⟨a, u, rest, he, -, -⟩ := recMatch_some_shape hm
    simp only [List.cons.injEq] at he
    exact absurd he.1 hc

theorem recAmt_not_ws {a : Char} (ha : isRecAmt a = true) : isWsChar a = false := by
  simp only [isRecAmt, Bool.decide_or, Bool.or_eq_true, decide_eq_true_eq] at ha
  rcases ha with rfl | rfl | rfl | rfl | rfl | rfl | rfl <;> decide

theorem recUnit_not_ws {u : Char} (hu : isRecUnit u = true) : isWsChar u = false := by
  simp only [isRecUnit, Bool.decide_or, Bool.or_eq_true, decide_eq_true_eq] at hu
  rcases hu with rfl | rfl | rfl <;> decide

theorem recMatch_tok_suffix_none {tok sfx θ : List Char}
    (hg : goodTok tok = true) (hrec : endsRecTag tok = false)
    (hsuf : θ <:+ tok) (hne : θ ≠ [])
    (hsfx : sfx = [] ∨ ∃ r, sfx = ' ' :: r) :
    recMatch (θ ++ sfx) = none := by
  cases hm : recMatch (θ ++ sfx) with
  | none => rfl
  | some x =>
    exfalso
    obtain ⟨a, u, rest, he, ha, hu, hbd⟩ := recMatch_some_boundary hm
    simp only [goodTok, Bool.and_eq_true, Bool.not_eq_true', List.all_eq_true] at hg
    have hwsf : ∀ ch ∈ θ, isWsChar ch = false := by
      intro ch hch
      simpa using hg.2 ch (hsuf.subset hch)
    rcases θ with _ | ⟨c1, _ | ⟨c2, _ | ⟨c3, _ | ⟨c4, _ | ⟨c5, _ | ⟨c6, θ7⟩⟩⟩⟩⟩⟩
    · exact hne rfl
    · rcases hsfx with rfl | ⟨r, rfl⟩
      · simp at he
      · simp only [List.cons_append, List.nil_append, List.cons.injEq] at he
        exact absurd he.2.1 (by decide)
    · rcases hsfx with rfl | ⟨r, rfl⟩
      · simp at he
      · simp only [List.cons_append, List.nil_append, List.cons.injEq] at he
        exact absurd he.2.2.1 (by decide)
    · rcases hsfx with rfl | ⟨r, rfl⟩
      · simp at he
      · simp only [List.cons_append, List.nil_append, List.cons.injEq] at he
        exact absurd he.2.2.2.1 (by decide)
    · rcases hsfx with rfl | ⟨r, rfl⟩
      · simp at he
      · simp only [List.cons_append, List.nil_append, List.cons.injEq] at he
        obtain ⟨-, -, -, -, heA, -⟩ := he
        rw [← heA] at ha
        exact absurd ha (by decide)
    · rcases hsfx with rfl | ⟨r, rfl⟩
      · simp at he
      · simp only [List.cons_append, List.nil_append, List.cons.injEq] at he
        obtain ⟨-, -, -, -, -, heU, -⟩ := he
        rw [← heU] at hu
        exact absurd hu (by decide)
    · simp only [List.cons_append, List.cons.injEq] at he
      obtain ⟨rfl, rfl, rfl, rfl, rfl, rfl, hrest⟩ := he
      rcases θ7 with _ | ⟨y, ys⟩
      · -- θ is exactly the six-character tag, a suffix of tok
        obtain ⟨pre, hpre⟩ := hsuf
        have hlen : tok.length = pre.length + 6 := by
          rw [← hpre]
          simp
        have hdrop : tok.drop (tok.length - 6) = ['r', 'e', 'c', ':', c5, c6] := by
          conv_lhs => rw [← hpre]
          have hl2 : (pre ++ ['r', 'e', 'c', ':', c5, c6]).length = pre.length + 6 := by
            simp
          rw [hl2]
          have h3 : pre.length + 6 - 6 = pre.length := by omega
          rw [h3]
          exact List.drop_left _ _
        have : endsRecTag tok = true := by
          simp only [endsRecTag, Bool.and_eq_true, decide_eq_true_eq]
          refine ⟨by omega, ?_⟩
          rw [hdrop]
          simp [isRecTagTok, ha, hu]
        rw [this] at hrec
        exact absurd hrec (by simp)
      · -- the boundary character is a whitespace-free token character
        rcases hbd with hbd | ⟨c, r2, hceq, hcws⟩
        · rw [← hrest] at hbd
          simp at hbd
        · rw [← hrest] at hceq
          simp only [List.cons_append, List.cons.injEq] at hceq
          have hy : isWsChar y = false := hwsf y (by simp)
          rw [← hceq.1] at hcws
          rw [hy] at hcws
          exact absurd hcws (by simp)

theorem suffix_of_cons_suffix {c : Char} {θ2 tok : List Char}
    (h : (c :: θ2) <:+ tok) : θ2 <:+ tok :=
  (List.suffix_cons c θ2).trans h

theorem extractRec_skip_tok (tok rest : List Char) (hg : goodTok tok = true)
    (hrec : endsRecTag tok = false) :
    scanE (fun _ => recMatch) true (tok ++ ' ' :: rest)
      = (scanE (fun _ => recMatch) true rest).map (fun p => (p.1, tok ++ ' ' :: p.2)) := by
  suffices aux : ∀ θ : List Char, θ <:+ tok →
      scanE (fun _ => recMatch) true (θ ++ ' ' :: rest)
        = (scanE (fun _ => recMatch) true rest).map (fun p => (p.1, θ ++ ' ' :: p.2)) by
    exact aux tok (List.suffix_refl tok)
  intro θ
  induction θ with
  | nil =>
    intro _
    rw [List.nil_append,
      scanE_step_none (fun _ => recMatch) true ' ' rest (recMatch_head_ne (by decide))]
    rw [scanE_rec_pw (isWsChar ' ') true]
    cases scanE (fun _ => recMatch) true rest with
    | none => rfl
    | some p => rfl
  | cons c θ2 ih =>
    intro hsuf
    have h0 : recMatch ((c :: θ2) ++ ' ' :: rest) = none :=
      recMatch_tok_suffix_none hg hrec hsuf (by simp) (Or.inr ⟨rest, rfl⟩)
    rw [List.cons_append,
      scanE_step_none (fun _ => recMatch) true c _ (by simpa using h0)]
    rw [scanE_rec_pw (isWsChar c) true, ih (suffix_of_cons_suffix hsuf)]
    cases scanE (fun _ => recMatch) true rest with
    | none => rfl
    | some p => rfl

theorem extractRec_last_tok (tok : List Char) (hg : goodTok tok = true)
    (hrec : endsRecTag tok = false) :
    extractRec tok = none := by
  suffices aux : ∀ θ : List Char, θ <:+ tok →
      scanE (fun _ => recMatch) true θ = none by
    exact aux tok (List.suffix_refl tok)
  intro θ
  induction θ with
  | nil => intro _; rfl
  | cons c θ2 ih =>
    intro hsuf
    have h0 : recMatch (c :: θ2) = none := by
      have h00 : recMatch ((c :: θ2) ++ []) = none :=
        recMatch_tok_suffix_none hg hrec hsuf (by simp) (Or.inl rfl)
      simpa using h00
    rw [scanE_step_none (fun _ => recMatch) true c _ h0,
      scanE_rec_pw (isWsChar c) true, ih (suffix_of_cons_suffix hsuf)]
    rfl

theorem extractRec_rec_tok (a u : Char) (ha : isRecAmt a = true)
    (hu : isRecUnit u = true) :
    extractRec ['r', 'e', 'c', ':', a, u]
      = some ((mkRec a u, String.mk [a, u]), []) := by
  apply scanE_step_some
  simp [recMatch, ha, hu]

theorem extractRec_prepend (pre : List (List Char)) (inner : List Char)
    (hg : ∀ tk ∈ pre, goodTok tk = true)
    (hrec : ∀ tk ∈ pre, endsRecTag tk = false) :
    extractRec (prependToks pre inner)
      = (extractRec inner).map (fun p => (p.1, prependToks pre p.2)) := by
  induction pre with
  | nil =>
    unfold extractRec
    show scanE (fun _ => recMatch) true inner = _
    cases scanE (fun _ => recMatch) true inner with
    | none => rfl
    | some p => rfl
  | cons t0 pre2 ih =>
    show extractRec (t0 ++ ' ' :: prependToks pre2 inner) = _
    unfold extractRec
    rw [extractRec_skip_tok t0 _ (hg t0 (by simp)) (hrec t0 (by simp))]
    have ih2 := ih (fun tk htk => hg tk (by simp [htk]))
      (fun tk htk => hrec tk (by simp [htk]))
    unfold extractRec at ih2
    rw [ih2]
    cases scanE (fun _ => recMatch) true inner with
    | none => rfl
    | some p => rfl

theorem extractDue_head_nil {d : CalDate} (hd : validDate d = true) :
    extractDue ('d' :: 'u' :: 'e' :: ':' :: dateToStringL d)
      = some ((d, dateToStringL d), []) :=
  scanE_step_some _ _ _ _ (dueMatch_head_nil hd)

theorem extractDue_head_ws {d : CalDate} (hd : validDate d = true) (r : List Char) :
    extractDue ('d' :: 'u' :: 'e' :: ':' :: (dateToStringL d ++ ' ' :: r))
      = some ((d, dateToStringL d), r) :=
  scanE_step_some _ _ _ _ (dueMatch_head_ws hd r)

/-! ## Completion- and priority-marker lemmas -/

theorem stripCompletion_complete_nil {c : CalDate} (hc : validDate c = true) :
    stripCompletion ('x' :: ' ' :: dateToStringL c) = (true, some c, []) := by
  have hlen := dateToStringL_length c
  simp only [stripCompletion]
  rw [if_pos (by decide)]
  rw [show (dateToStringL c).take 10 = dateToStringL c from by
    rw [← hlen]; exact List.take_length _]
  rw [parseDate10_dateToStringL hc]
  rw [show (dateToStringL c).drop 10 = ([] : List Char) from by
    rw [← hlen]; exact List.drop_length _]

theorem stripCompletion_complete_ws {c : CalDate} (hc : validDate c = true)
    (r : List Char) :
    stripCompletion ('x' :: ' ' :: (dateToStringL c ++ ' ' :: r))
      = (true, some c, r) := by
  have hlen := dateToStringL_length c
  simp only [stripCompletion]
  rw [if_pos (by decide)]
  rw [show (dateToStringL c ++ ' ' :: r).take 10 = dateToStringL c from by
    rw [← hlen]; exact List.take_left _ _]
  rw [parseDate10_dateToStringL hc]
  rw [show (dateToStringL c ++ ' ' :: r).drop 10 = ' ' :: r from by
    rw [← hlen]; exact List.drop_left _ _]
  rfl

theorem stripCompletion_skip (toks : List (List Char))
    (hg : ∀ tk ∈ toks, goodTok tk = true)
    (hx : ¬∃ rest, toks = ['x'] :: rest) :
    stripCompletion (joinT toks) = (false, none, joinT toks) := by
  rcases toks with _ | ⟨t0, ts⟩
  · rfl
  · have hg0 := hg t0 (by simp)
    simp only [goodTok, Bool.and_eq_true, Bool.not_eq_true', List.all_eq_true] at hg0
    rcases t0 with _ | ⟨c0, cs⟩
    · simp at hg0
    · rcases cs with _ | ⟨c1, cs2⟩
      · -- single-character first token
        have hc0 : ¬c0 = 'x' := by
          intro h
          exact hx ⟨ts, by rw [h]⟩
        rcases ts with _ | ⟨t1, ts2⟩
        · show stripCompletion [c0] = _
          rfl
        · show stripCompletion (c0 :: ' ' :: joinT (t1 :: ts2)) = _
          simp only [stripCompletion]
          rw [if_neg (by simp [hc0])]
          rfl
      · -- first token has at least two characters
        have hc1 : isWsChar c1 = false := by
          simpa using hg0.2 c1 (by simp)
        rcases ts with _ | ⟨t1, ts2⟩
        · show stripCompletion (c0 :: c1 :: cs2) = _
          simp only [stripCompletion]
          rw [if_neg (by simp [hc1])]
          rfl
        · show stripCompletion (c0 :: c1 :: (cs2 ++ ' ' :: joinT (t1 :: ts2))) = _
          simp only [stripCompletion]
          rw [if_neg (by simp [hc1])]
          rfl

theorem stripPriority_some_nil {p : Char} (hp : isUpperAZ p = true) :
    stripPriority ['(', p, ')'] = (some (String.mk [p]), []) := by
  simp only [stripPriority]
  rw [if_pos (by simp [hp])]

theorem stripPriority_some_ws {p : Char} (hp : isUpperAZ p = true) (r : List Char) :
    stripPriority ('(' :: p :: ')' :: ' ' :: r) = (some (String.mk [p]), r) := by
  simp only [stripPriority]
  rw [if_pos (by simp [hp]), if_pos (by decide)]

theorem stripPriority_skip (toks : List (List Char))
    (hg : ∀ tk ∈ toks, goodTok tk = true)
    (hp : ∀ t0, toks.head? = some t0 → isPrioTok t0 = false) :
    stripPriority (joinT toks) = (none, joinT toks) := by
  rcases toks with _ | ⟨t0, ts⟩
  · rfl
  · have hg0 := hg t0 (by simp)
    have hp0 := hp t0 rfl
    simp only [goodTok, Bool.and_eq_true, Bool.not_eq_true', List.all_eq_true] at hg0
    rcases t0 with _ | ⟨c0, cs⟩
    · simp at hg0
    · by_cases hc0 : c0 = '('
      all_goals rcases cs with _ | ⟨c1, cs2⟩
      · -- t0 = ['(']
        rcases ts with _ | ⟨t1, ts2⟩
        · show stripPriority [c0] = _
          rfl
        · have hg1 := hg t1 (by simp)
          simp only [goodTok, Bool.and_eq_true, Bool.not_eq_true',
            List.all_eq_true] at hg1
          rcases ht1 : t1 with _ | ⟨d0, ds⟩
          · rw [ht1] at hg1
            simp at hg1
          · show stripPriority (c0 :: ' ' :: joinT ((d0 :: ds) :: ts2)) = _
            rcases ts2 with _ | ⟨t2, ts3⟩
            · show stripPriority (c0 :: ' ' :: d0 :: ds) = _
              simp only [stripPriority]
              rw [if_neg (by simp [isUpperAZ])]
              rfl
            · show stripPriority (c0 :: ' ' :: d0 :: (ds ++ ' ' :: joinT (t2 :: ts3))) = _
              simp only [stripPriority]
              rw [if_neg (by simp [isUpperAZ])]
              rfl
      · -- t0 = '(' :: c1 :: cs2
        subst hc0
        rcases cs2 with _ | ⟨c2, cs3⟩
        · -- t0 = ['(', c1]
          rcases ts with _ | ⟨t1, ts2⟩
          · show stripPriority ['(', c1] = _
            rfl
          · show stripPriority ('(' :: c1 :: ' ' :: joinT (t1 :: ts2)) = _
            simp only [stripPriority]
            rw [if_neg (by simp)]
            rfl
        · by_cases hpr : (isUpperAZ c1 && c2 = ')') = true
          · -- a priority-marker-shaped start: the token must be longer
            simp only [Bool.and_eq_true, decide_eq_true_eq] at hpr
            obtain ⟨hup, rfl⟩ := hpr
            rcases cs3 with _ | ⟨c3, cs4⟩
            · exfalso
              rw [show isPrioTok ['(', c1, ')'] = true from by simp [isPrioTok, hup]]
                at hp0
              exact absurd hp0 (by simp)
            · have hc3 : isWsChar c3 = false := by
                simpa using hg0.2 c3 (by simp)
              rcases ts with _ | ⟨t1, ts2⟩
              · show stripPriority ('(' :: c1 :: ')' :: c3 :: cs4) = _
                simp only [stripPriority]
                rw [if_pos (by simp [hup]), if_neg (by simp [hc3])]
                rfl
              · show stripPriority
                  ('(' :: c1 :: ')' :: c3 :: (cs4 ++ ' ' :: joinT (t1 :: ts2))) = _
                simp only [stripPriority]
                rw [if_pos (by simp [hup]), if_neg (by simp [hc3])]
                rfl
          · rcases ts with _ | ⟨t1, ts2⟩
            · show stripPriority ('(' :: c1 :: c2 :: cs3) = _
              simp only [stripPriority]
              rw [if_neg (by simpa using hpr)]
              rfl
            · show stripPriority ('(' :: c1 :: c2 :: (cs3 ++ ' ' :: joinT (t1 :: ts2))) = _
              simp only [stripPriority]
              rw [if_neg (by simpa using hpr)]
              rfl
      · -- c0 ≠ '(' , singleton token
        rcases ts with _ | ⟨t1, ts2⟩
        · show stripPriority [c0] = _
          rfl
        · have hg1 := hg t1 (by simp)
          simp only [goodTok, Bool.and_eq_true, Bool.not_eq_true',
            List.all_eq_true] at hg1
          rcases ht1 : t1 with _ | ⟨d0, ds⟩
          · rw [ht1] at hg1
            simp at hg1
          · rcases ts2 with _ | ⟨t2, ts3⟩
            · show stripPriority (c0 :: ' ' :: d0 :: ds) = _
              simp only [stripPriority]
              rw [if_neg (by simp [hc0])]
              rfl
            · show stripPriority (c0 :: ' ' :: d0 :: (ds ++ ' ' :: joinT (t2 :: ts3))) = _
              simp only [stripPriority]
              rw [if_neg (by simp [hc0])]
              rfl
      · -- c0 ≠ '(' , token with at least two characters
        rcases cs2 with _ | ⟨c2, cs3⟩
        · rcases ts with _ | ⟨t1, ts2⟩
          · show stripPriority [c0, c1] = _
            rfl
          · show stripPriority (c0 :: c1 :: ' ' :: joinT (t1 :: ts2)) = _
            simp only [stripPriority]
            rw [if_neg (by simp [hc0])]
            rfl
        · rcases ts with _ | ⟨t1, ts2⟩
          · show stripPriority (c0 :: c1 :: c2 :: cs3) = _
            simp only [stripPriority]
            rw [if_neg (by simp [hc0])]
            rfl
          · show stripPriority (c0 :: c1 :: c2 :: (cs3 ++ ' ' :: joinT (t1 :: ts2))) = _
            simp only [stripPriority]
            rw [if_neg (by simp [hc0])]
            rfl

/-! ## Round-trip: token classes and serialized-line decomposition -/

theorem String_mk_data (s : String) : String.mk s.data = s := rfl

theorem tailToks_decomp (t : TodoTxtItem) :
    tailToks t = pre1Toks t ++ dueToks t ++ recToks t := rfl

theorem serializeToks_decomp (t : TodoTxtItem) :
    serializeToks t = compToks t ++ prioToks t ++ tailToks t := rfl

theorem isUpperAZ_not_ws {c : Char} (h : isUpperAZ c = true) : isWsChar c = false := by
  simp only [isUpperAZ, Bool.and_eq_true, decide_eq_true_eq] at h
  simp only [isWsChar, decide_eq_false_iff_not]
  rintro (rfl | rfl | rfl | rfl) <;> exact absurd h (by decide)

theorem tokenOk_parts {v : String} (hv : tokenOk v = true) :
    ∀ x ∈ v.data, isWsChar x = false := by
  simp only [tokenOk, Bool.and_eq_true, List.all_eq_true, Bool.and_eq_true,
    Bool.not_eq_true'] at hv
  intro x hx
  exact (hv.2 x hx).1

theorem goodTok_cons {v : List Char} (c : Char) (hc : isWsChar c = false)
    (hv : ∀ x ∈ v, isWsChar x = false) : goodTok (c :: v) = true := by
  simp [goodTok, hc]
  exact hv

theorem goodTok_dueTag {d : CalDate} (hd : validDate d = true) :
    goodTok ('d' :: 'u' :: 'e' :: ':' :: dateToStringL d) = true := by
  have hws := parseDate10_not_ws (parseDate10_dateToStringL hd)
  simp [goodTok, isWsChar]
  intro x hx
  have h := hws x hx
  simp [isWsChar] at h
  exact h

theorem goodTok_recTag {a u : Char} (ha : isRecAmt a = true) (hu : isRecUnit u = true) :
    goodTok ['r', 'e', 'c', ':', a, u] = true := by
  have h1 := recAmt_not_ws ha
  have h2 := recUnit_not_ws hu
  simp [goodTok, isWsChar]
  simp [isWsChar] at h1 h2
  exact ⟨h1, h2⟩

theorem isDueTagTok_not_d {c : Char} (v : List Char) (hc : ¬c = 'd') :
    isDueTagTok (c :: v) = false := by
  rcases v with _ | ⟨a, _ | ⟨b, _ | ⟨e, rest⟩⟩⟩ <;> simp [isDueTagTok, hc]

theorem recRender_data {r : TaskRecurrence} (h : recOk r = true) :
    r.render.data = [digitChar r.amount, r.key.data.headD 'd']
      ∧ isRecAmt (digitChar r.amount) = true
      ∧ isRecUnit (r.key.data.headD 'd') = true
      ∧ mkRec (digitChar r.amount) (r.key.data.headD 'd') = r := by
  obtain ⟨n, k⟩ := r
  simp only [recOk, Bool.and_eq_true, decide_eq_true_eq, Bool.or_eq_true] at h
  obtain ⟨⟨h1, h7⟩, hk⟩ := h
  rcases hk with (rfl | rfl) | rfl <;> interval_cases n <;> decide

theorem filterMap_none {α β : Type} (f : α → Option β) :
    ∀ l : List α, (∀ a ∈ l, f a = none) → l.filterMap f = [] := by
  intro l
  induction l with
  | nil => intro _; rfl
  | cons a l ih =>
    intro h
    rw [List.filterMap_cons, h a (by simp)]
    exact ih (fun x hx => h x (by simp [hx]))

theorem filterMap_map_id {α β : Type} (f : β → Option α) (g : α → β)
    (h : ∀ a, f (g a) = some a) : ∀ l : List α, (l.map g).filterMap f = l := by
  intro l
  induction l with
  | nil => rfl
  | cons a l ih =>
    rw [List.map_cons, List.filterMap_cons, h a]
    exact congrArg (List.cons a) ih

theorem filter_all_true {α : Type} (p : α → Bool) :
    ∀ l : List α, (∀ a ∈ l, p a = true) → l.filter p = l := by
  intro l
  induction l with
  | nil => intro _; rfl
  | cons a l ih =>
    intro h
    rw [List.filter_cons, if_pos (h a (by simp))]
    exact congrArg (List.cons a) (ih (fun x hx => h x (by simp [hx])))

theorem filter_all_false {α : Type} (p : α → Bool) :
    ∀ l : List α, (∀ a ∈ l, p a = false) → l.filter p = [] := by
  intro l
  induction l with
  | nil => intro _; rfl
  | cons a l ih =>
    intro h
    rw [List.filter_cons, if_neg (by simp [h a (by simp)])]
    exact ih (fun x hx => h x (by simp [hx]))

theorem extractDue_join_none : ∀ toks : List (List Char),
    (∀ tk ∈ toks, goodTok tk = true) →
    (∀ tk ∈ toks, isDueTagTok tk = false) →
    extractDue (joinT toks) = none := by
  intro toks
  induction toks with
  | nil => intro _ _; rfl
  | cons t0 ts ih =>
    intro hg hnd
    rcases ts with _ | ⟨t1, ts2⟩
    · exact extractDue_single_tok t0 (hg t0 (by simp)) (by
        have h := dueMatch_tok_none (hg t0 (by simp)) (hnd t0 (by simp)) (Or.inl rfl)
        simpa using h)
    · show extractDue (t0 ++ ' ' :: joinT (t1 :: ts2)) = _
      unfold extractDue
      rw [extractDue_skip_tok t0 _ (hg t0 (by simp))
        (dueMatch_tok_none (hg t0 (by simp)) (hnd t0 (by simp)) (Or.inr ⟨_, rfl⟩))]
      have ihh := ih (fun tk h => hg tk (List.mem_cons_of_mem _ h))
        (fun tk h => hnd tk (List.mem_cons_of_mem _ h))
      unfold extractDue at ihh
      rw [ihh]
      rfl

theorem extractRec_join_none : ∀ toks : List (List Char),
    (∀ tk ∈ toks, goodTok tk = true) →
    (∀ tk ∈ toks, endsRecTag tk = false) →
    extractRec (joinT toks) = none := by
  intro toks
  induction toks with
  | nil => intro _ _; rfl
  | cons t0 ts ih =>
    intro hg hrec
    rcases ts with _ | ⟨t1, ts2⟩
    · exact extractRec_last_tok t0 (hg t0 (by simp)) (hrec t0 (by simp))
    · show extractRec (t0 ++ ' ' :: joinT (t1 :: ts2)) = _
      unfold extractRec
      rw [extractRec_skip_tok t0 _ (hg t0 (by simp)) (hrec t0 (by simp))]
      have ihh := ih (fun tk h => hg tk (List.mem_cons_of_mem _ h))
        (fun tk h => hrec tk (List.mem_cons_of_mem _ h))
      unfold extractRec at ihh
      rw [ihh]
      rfl

theorem stripCompletion_complete_join {c : CalDate} (hc : validDate c = true)
    (rest : List (List Char)) :
    stripCompletion (joinT (['x'] :: dateToStringL c :: rest))
      = (true, some c, joinT rest) := by
  rcases rest with _ | ⟨r0, rs⟩
  · exact stripCompletion_complete_nil hc
  · show stripCompletion ('x' :: ' ' :: (dateToStringL c ++ ' ' :: joinT (r0 :: rs))) = _
    exact stripCompletion_complete_ws hc _

theorem stripPriority_prio_join {c1 : Char} (h : isUpperAZ c1 = true)
    (rest : List (List Char)) :
    stripPriority (joinT (['(', c1, ')'] :: rest))
      = (some (String.mk [c1]), joinT rest) := by
  rcases rest with _ | ⟨r0, rs⟩
  · exact stripPriority_some_nil h
  · show stripPriority ('(' :: c1 :: ')' :: ' ' :: joinT (r0 :: rs)) = _
    exact stripPriority_some_ws h _

theorem pre1Toks_props (t : TodoTxtItem) (hv : validItem t = true)
    (hs : serialSafe t = true) :
    ∀ tk ∈ pre1Toks t,
      goodTok tk = true ∧ isDueTagTok tk = false ∧ endsRecTag tk = false := by
  have hv' := hv
  simp only [validItem, Bool.and_eq_true] at hv'
  obtain ⟨⟨⟨⟨⟨⟨⟨-, -⟩, -⟩, h4⟩, h5⟩, -⟩, -⟩, h8⟩ := hv'
  have hs' := hs
  simp only [serialSafe, Bool.and_eq_true] at hs'
  obtain ⟨⟨⟨⟨s1, s2⟩, s3⟩, -⟩, -⟩ := hs'
  intro tk htk
  simp only [pre1Toks, List.mem_append] at htk
  rcases htk with (htext | hproj) | hctx
  · refine ⟨splitWs_good _ tk htext, ?_, ?_⟩
    · have h8' := List.all_eq_true.1 h8 tk htext
      simp only [textTokOk, Bool.and_eq_true, Bool.not_eq_true'] at h8'
      exact h8'.2
    · have hsr := List.all_eq_true.1 s1 tk htext
      simpa using hsr
  · rcases hP : t.projects with _ | P
    · rw [hP] at hproj
      simp at hproj
    · rw [hP] at hproj
      simp only [List.mem_map] at hproj
      obtain ⟨v, hvP, rfl⟩ := hproj
      have h4' : (!P.isEmpty && P.all tokenOk) = true := by rw [hP] at h4; exact h4
      simp only [Bool.and_eq_true, List.all_eq_true] at h4'
      have s2' : P.all (fun v => !endsRecTag ('+' :: v.data)) = true := by
        rw [hP] at s2; exact s2
      refine ⟨goodTok_cons '+' (by decide) (tokenOk_parts (h4'.2 v hvP)), ?_, ?_⟩
      · exact isDueTagTok_not_d _ (by decide)
      · have hsr := List.all_eq_true.1 s2' v hvP
        simpa using hsr
  · rcases hC : t.contexts with _ | C
    · rw [hC] at hctx
      simp at hctx
    · rw [hC] at hctx
      simp only [List.mem_map] at hctx
      obtain ⟨v, hvC, rfl⟩ := hctx
      have h5' : (!C.isEmpty && C.all tokenOk) = true := by rw [hC] at h5; exact h5
      simp only [Bool.and_eq_true, List.all_eq_true] at h5'
      have s3' : C.all (fun v => !endsRecTag ('@' :: v.data)) = true := by
        rw [hC] at s3; exact s3
      refine ⟨goodTok_cons '@' (by decide) (tokenOk_parts (h5'.2 v hvC)), ?_, ?_⟩
      · exact isDueTagTok_not_d _ (by decide)
      · have hsr := List.all_eq_true.1 s3' v hvC
        simpa using hsr

theorem tailToks_good (t : TodoTxtItem) (hv : validItem t = true) :
    ∀ tk ∈ tailToks t, goodTok tk = true := by
  have hv' := hv
  simp only [validItem, Bool.and_eq_true] at hv'
  obtain ⟨⟨⟨⟨⟨⟨⟨-, -⟩, -⟩, h4⟩, h5⟩, h6⟩, h7⟩, -⟩ := hv'
  intro tk htk
  simp only [tailToks, List.mem_append] at htk
  rcases htk with (((htext | hproj) | hctx) | hdue) | hrec
  · exact splitWs_good _ tk htext
  · rcases hP : t.projects with _ | P
    · rw [hP] at hproj
      simp at hproj
    · rw [hP] at hproj
      simp only [List.mem_map] at hproj
      obtain ⟨v, hvP, rfl⟩ := hproj
      have h4' : (!P.isEmpty && P.all tokenOk) = true := by rw [hP] at h4; exact h4
      simp only [Bool.and_eq_true, List.all_eq_true] at h4'
      exact goodTok_cons '+' (by decide) (tokenOk_parts (h4'.2 v hvP))
  · rcases hC : t.contexts with _ | C
    · rw [hC] at hctx
      simp at hctx
    · rw [hC] at hctx
      simp only [List.mem_map] at hctx
      obtain ⟨v, hvC, rfl⟩ := hctx
      have h5' : (!C.isEmpty && C.all tokenOk) = true := by rw [hC] at h5; exact h5
      simp only [Bool.and_eq_true, List.all_eq_true] at h5'
      exact goodTok_cons '@' (by decide) (tokenOk_parts (h5'.2 v hvC))
  · rcases hD : t.due with _ | d
    · rw [hD] at hdue
      simp at hdue
    · rw [hD] at hdue
      simp only [List.mem_singleton] at hdue
      subst hdue
      have h6' : validDate d = true := by rw [hD] at h6; exact h6
      exact goodTok_dueTag h6'
  · rcases hR : t.recurrence with _ | r
    · rw [hR] at hrec
      simp at hrec
    · rw [hR] at hrec
      simp only [List.mem_singleton] at hrec
      subst hrec
      have h7' : recOk r = true := by rw [hR] at h7; exact h7
      obtain ⟨hdata, ha, hu, -⟩ := recRender_data h7'
      rw [hdata]
      exact goodTok_recTag ha hu

theorem prioToks_good (t : TodoTxtItem) (hv : validItem t = true) :
    ∀ tk ∈ prioToks t, goodTok tk = true := by
  have hv' := hv
  simp only [validItem, Bool.and_eq_true] at hv'
  obtain ⟨⟨⟨⟨⟨⟨⟨-, -⟩, h3⟩, -⟩, -⟩, -⟩, -⟩, -⟩ := hv'
  intro tk htk
  simp only [prioToks] at htk
  rcases hPr : t.priority with _ | p
  · rw [hPr] at htk
    simp at htk
  · rw [hPr] at htk
    have htk' : tk ∈ [('(' :: p.data ++ [')'])] := htk
    simp only [List.mem_singleton] at htk'
    subst htk'
    have h3' : priorityOk p = true := by rw [hPr] at h3; exact h3
    simp only [priorityOk] at h3'
    rcases hpd : p.data with _ | ⟨c1, _ | ⟨c2, r2⟩⟩
    · rw [hpd] at h3'
      exact absurd h3' (by simp)
    · rw [hpd] at h3'
      have hup : isUpperAZ c1 = true := h3'
      exact goodTok_cons '(' (by decide) (by
        intro x hx
        simp at hx
        rcases hx with rfl | rfl
        · exact isUpperAZ_not_ws hup
        · decide)
    · rw [hpd] at h3'
      exact absurd h3' (by simp)

theorem stripCompletion_serialized (t : TodoTxtItem) (hv : validItem t = true)
    (hs : serialSafe t = true) :
    stripCompletion (serializeChars t)
      = (t.complete, t.completed, joinT (prioToks t ++ tailToks t)) := by
  have hv' := hv
  simp only [validItem, Bool.and_eq_true] at hv'
  obtain ⟨⟨⟨⟨⟨⟨⟨h1, h2⟩, -⟩, -⟩, -⟩, -⟩, -⟩, -⟩ := hv'
  rw [beq_iff_eq] at h1
  rcases hcpd : t.completed with _ | c
  · have hcp : t.complete = false := by rw [h1, hcpd]; rfl
    have hser : serializeChars t = joinT (prioToks t ++ tailToks t) := by
      simp [serializeChars, serializeToks_decomp t, compToks, hcp]
    rw [hser, hcp]
    apply stripCompletion_skip
    · intro tk htk
      rcases List.mem_append.1 htk with h | h
      · exact prioToks_good t hv tk h
      · exact tailToks_good t hv tk h
    · rintro ⟨rest, hrest⟩
      have hs' := hs
      simp only [serialSafe, Bool.and_eq_true] at hs'
      obtain ⟨⟨-, s4⟩, -⟩ := hs'
      rw [hcp] at s4
      have s4' : headTokIsX (serializeToks t) = false := by simpa using s4
      rw [serializeToks_decomp t] at s4'
      have s4'' : headTokIsX (compToks t ++ (prioToks t ++ tailToks t)) = false := by
        simpa using s4'
      rw [show compToks t = [] from by simp [compToks, hcp], List.nil_append,
        hrest] at s4''
      simp [headTokIsX] at s4''
  · have hcp : t.complete = true := by rw [h1, hcpd]; rfl
    have h2' : validDate c = true := by rw [hcpd] at h2; exact h2
    have hser : serializeChars t
        = joinT (['x'] :: dateToStringL c :: (prioToks t ++ tailToks t)) := by
      simp [serializeChars, serializeToks_decomp t, compToks, hcp, hcpd]
    rw [hser, hcp]
    exact stripCompletion_complete_join h2' _

theorem stripPriority_serialized (t : TodoTxtItem) (hv : validItem t = true)
    (hs : serialSafe t = true) :
    stripPriority (joinT (prioToks t ++ tailToks t))
      = (t.priority, joinT (tailToks t)) := by
  have hv' := hv
  simp only [validItem, Bool.and_eq_true] at hv'
  obtain ⟨⟨⟨⟨⟨⟨⟨-, -⟩, h3⟩, -⟩, -⟩, -⟩, -⟩, -⟩ := hv'
  rcases hPr : t.priority with _ | p
  · have hpre : prioToks t = [] := by simp [prioToks, hPr]
    rw [hpre, List.nil_append]
    apply stripPriority_skip
    · exact tailToks_good t hv
    · intro t0 ht0
      have hs' := hs
      simp only [serialSafe, Bool.and_eq_true] at hs'
      obtain ⟨-, s5⟩ := hs'
      rw [hPr] at s5
      have s5' : (match tailToks t with
          | t0 :: _ => isPrioTok t0
          | [] => false) = false := by
        simpa using s5
      rcases htt : tailToks t with _ | ⟨u0, us⟩
      · rw [htt] at ht0
        exact absurd ht0 (by simp)
      · rw [htt] at ht0 s5'
        simp only [List.head?_cons, Option.some.injEq] at ht0
        subst ht0
        exact s5'
  · have h3' : priorityOk p = true := by rw [hPr] at h3; exact h3
    simp only [priorityOk] at h3'
    rcases hpd : p.data with _ | ⟨c1, _ | ⟨c2, r2⟩⟩
    · rw [hpd] at h3'
      exact absurd h3' (by simp)
    · rw [hpd] at h3'
      have hup : isUpperAZ c1 = true := h3'
      have hpre : prioToks t = [['(', c1, ')']] := by
        simp [prioToks, hPr, hpd]
      rw [hpre, List.singleton_append, stripPriority_prio_join hup (tailToks t),
        ← hpd, String_mk_data]
    · rw [hpd] at h3'
      exact absurd h3' (by simp)

theorem pre1_projects (t : TodoTxtItem) (hv : validItem t = true) :
    (pre1Toks t).filterMap (fun tk =>
      match tk with
      | c :: v => if c = '+' then some (String.mk v) else none
      | [] => none)
    = (match t.projects with | some l => l | none => []) := by
  have hv' := hv
  simp only [validItem, Bool.and_eq_true] at hv'
  obtain ⟨⟨⟨⟨⟨⟨⟨-, -⟩, -⟩, -⟩, -⟩, -⟩, -⟩, h8⟩ := hv'
  simp only [pre1Toks, List.filterMap_append]
  have htext : (splitWs t.text.data).filterMap (fun tk =>
      match tk with
      | c :: v => if c = '+' then some (String.mk v) else none
      | [] => none) = [] := by
    apply filterMap_none
    intro a ha
    have h8' := List.all_eq_true.1 h8 a ha
    simp only [textTokOk, Bool.and_eq_true, Bool.not_eq_true',
      decide_eq_false_iff_not] at h8'
    rcases a with _ | ⟨c, v⟩
    · rfl
    · show (if c = '+' then some (String.mk v) else none) = none
      rw [if_neg]
      intro hc
      exact h8'.1.1 (by rw [List.head?_cons, hc])
  rcases hP : t.projects with _ | P <;> rcases hC : t.contexts with _ | C <;>
    simp only [pre1Toks, hP, hC, List.filterMap_append, htext, List.filterMap_nil,
      List.nil_append, List.append_nil]
  case none.some =>
    exact filterMap_none _ _ (fun a ha => by
      simp only [List.mem_map] at ha
      obtain ⟨v, -, rfl⟩ := ha
      rfl)
  case some.none =>
    exact filterMap_map_id _ _ (fun v => by
      show (if '+' = '+' then some (String.mk v.data) else none) = some v
      rw [if_pos rfl, String_mk_data]) P
  case some.some =>
    have h2 : (C.map (fun v : String => '@' :: v.data)).filterMap (fun tk =>
        match tk with
        | c :: v => if c = '+' then some (String.mk v) else none
        | [] => none) = [] :=
      filterMap_none _ _ (fun a ha => by
        simp only [List.mem_map] at ha
        obtain ⟨v, -, rfl⟩ := ha
        rfl)
    rw [h2, List.append_nil]
    exact filterMap_map_id _ _ (fun v => by
      show (if '+' = '+' then some (String.mk v.data) else none) = some v
      rw [if_pos rfl, String_mk_data]) P

theorem pre1_contexts (t : TodoTxtItem) (hv : validItem t = true) :
    (pre1Toks t).filterMap (fun tk =>
      match tk with
      | c :: v => if c = '@' then some (String.mk v) else none
      | [] => none)
    = (match t.contexts with | some l => l | none => []) := by
  have hv' := hv
  simp only [validItem, Bool.and_eq_true] at hv'
  obtain ⟨⟨⟨⟨⟨⟨⟨-, -⟩, -⟩, -⟩, -⟩, -⟩, -⟩, h8⟩ := hv'
  simp only [pre1Toks, List.filterMap_append]
  have htext : (splitWs t.text.data).filterMap (fun tk =>
      match tk with
      | c :: v => if c = '@' then some (String.mk v) else none
      | [] => none) = [] := by
    apply filterMap_none
    intro a ha
    have h8' := List.all_eq_true.1 h8 a ha
    simp only [textTokOk, Bool.and_eq_true, Bool.not_eq_true',
      decide_eq_false_iff_not] at h8'
    rcases a with _ | ⟨c, v⟩
    · rfl
    · show (if c = '@' then some (String.mk v) else none) = none
      rw [if_neg]
      intro hc
      exact h8'.1.2 (by rw [List.head?_cons, hc])
  rcases hP : t.projects with _ | P <;> rcases hC : t.contexts with _ | C <;>
    simp only [pre1Toks, hP, hC, List.filterMap_append, htext, List.filterMap_nil,
      List.nil_append, List.append_nil]
  case none.some =>
    exact filterMap_map_id _ _ (fun v => by
      show (if '@' = '@' then some (String.mk v.data) else none) = some v
      rw [if_pos rfl, String_mk_data]) C
  case some.none =>
    exact filterMap_none _ _ (fun a ha => by
      simp only [List.mem_map] at ha
      obtain ⟨v, -, rfl⟩ := ha
      rfl)
  case some.some =>
    have h1 : (P.map (fun v : String => '+' :: v.data)).filterMap (fun tk =>
        match tk with
        | c :: v => if c = '@' then some (String.mk v) else none
        | [] => none) = [] :=
      filterMap_none _ _ (fun a ha => by
        simp only [List.mem_map] at ha
        obtain ⟨v, -, rfl⟩ := ha
        rfl)
    rw [h1, List.nil_append]
    exact filterMap_map_id _ _ (fun v => by
      show (if '@' = '@' then some (String.mk v.data) else none) = some v
      rw [if_pos rfl, String_mk_data]) C

theorem pre1_text (t : TodoTxtItem) (hv : validItem t = true) :
    (pre1Toks t).filter (fun tk =>
      match tk with
      | c :: _ => !(c = '+' || c = '@')
      | [] => true)
    = splitWs t.text.data := by
  have hv' := hv
  simp only [validItem, Bool.and_eq_true] at hv'
  obtain ⟨⟨⟨⟨⟨⟨⟨-, -⟩, -⟩, -⟩, -⟩, -⟩, -⟩, h8⟩ := hv'
  simp only [pre1Toks, List.filter_append]
  have htext : (splitWs t.text.data).filter (fun tk =>
      match tk with
      | c :: _ => !(c = '+' || c = '@')
      | [] => true) = splitWs t.text.data := by
    apply filter_all_true
    intro a ha
    have h8' := List.all_eq_true.1 h8 a ha
    simp only [textTokOk, Bool.and_eq_true, Bool.not_eq_true',
      decide_eq_false_iff_not] at h8'
    rcases a with _ | ⟨c, v⟩
    · rfl
    · have hcp : ¬c = '+' := fun hc => h8'.1.1 (by rw [List.head?_cons, hc])
      have hca : ¬c = '@' := fun hc => h8'.1.2 (by rw [List.head?_cons, hc])
      show (!(c = '+' || c = '@')) = true
      simp [hcp, hca]
  rcases hP : t.projects with _ | P <;> rcases hC : t.contexts with _ | C <;>
    simp only [pre1Toks, hP, hC, List.filter_append, htext, List.filter_nil,
      List.nil_append, List.append_nil]
  case none.some =>
    have h2 : (C.map (fun v : String => '@' :: v.data)).filter (fun tk =>
        match tk with
        | c :: _ => !(c = '+' || c = '@')
        | [] => true) = [] :=
      filter_all_false _ _ (fun a ha => by
        simp only [List.mem_map] at ha
        obtain ⟨v, -, rfl⟩ := ha
        rfl)
    rw [h2, List.append_nil]
  case some.none =>
    have h1 : (P.map (fun v : String => '+' :: v.data)).filter (fun tk =>
        match tk with
        | c :: _ => !(c = '+' || c = '@')
        | [] => true) = [] :=
      filter_all_false _ _ (fun a ha => by
        simp only [List.mem_map] at ha
        obtain ⟨v, -, rfl⟩ := ha
        rfl)
    rw [h1, List.append_nil]
  case some.some =>
    have h1 : (P.map (fun v : String => '+' :: v.data)).filter (fun tk =>
        match tk with
        | c :: _ => !(c = '+' || c = '@')
        | [] => true) = [] :=
      filter_all_false _ _ (fun a ha => by
        simp only [List.mem_map] at ha
        obtain ⟨v, -, rfl⟩ := ha
        rfl)
    have h2 : (C.map (fun v : String => '@' :: v.data)).filter (fun tk =>
        match tk with
        | c :: _ => !(c = '+' || c = '@')
        | [] => true) = [] :=
      filter_all_false _ _ (fun a ha => by
        simp only [List.mem_map] at ha
        obtain ⟨v, -, rfl⟩ := ha
        rfl)
    rw [h1, h2]
    simp

theorem projects_opt_eq (t : TodoTxtItem) (hv : validItem t = true) :
    (if (match t.projects with | some l => l | none => ([] : List String)) = []
     then none
     else some (match t.projects with | some l => l | none => [])) = t.projects := by
  have hv' := hv
  simp only [validItem, Bool.and_eq_true] at hv'
  obtain ⟨⟨⟨⟨⟨⟨⟨-, -⟩, -⟩, h4⟩, -⟩, -⟩, -⟩, -⟩ := hv'
  rcases hP : t.projects with _ | P
  · simp
  · have h4' : (!P.isEmpty && P.all tokenOk) = true := by rw [hP] at h4; exact h4
    simp only [Bool.and_eq_true, Bool.not_eq_true'] at h4'
    have hne : P ≠ [] := by
      intro h0
      rw [h0] at h4'
      exact absurd h4'.1 (by decide)
    simp [hne]

theorem contexts_opt_eq (t : TodoTxtItem) (hv : validItem t = true) :
    (if (match t.contexts with | some l => l | none => ([] : List String)) = []
     then none
     else some (match t.contexts with | some l => l | none => [])) = t.contexts := by
  have hv' := hv
  simp only [validItem, Bool.and_eq_true] at hv'
  obtain ⟨⟨⟨⟨⟨⟨⟨-, -⟩, -⟩, -⟩, h5⟩, -⟩, -⟩, -⟩ := hv'
  rcases hC : t.contexts with _ | C
  · simp
  · have h5' : (!C.isEmpty && C.all tokenOk) = true := by rw [hC] at h5; exact h5
    simp only [Bool.and_eq_true, Bool.not_eq_true'] at h5'
    have hne : C ≠ [] := by
      intro h0
      rw [h0] at h5'
      exact absurd h5'.1 (by decide)
    simp [hne]

theorem parse_serialize (t : TodoTxtItem) (hv : validItem t = true)
    (hs : serialSafe t = true) :
    parseItem (serializeChars t)
      = { t with
          text := String.mk (joinT (splitWs t.text.data)),
          date := none,
          dueString := t.due.map dateToString,
          recString := t.recurrence.map TaskRecurrence.render } := by
  have hprops := pre1Toks_props t hv hs
  have hgood : ∀ tk ∈ pre1Toks t, goodTok tk = true := fun tk h => (hprops tk h).1
  have hdnone : ∀ tk ∈ pre1Toks t, ∀ sfx, (sfx = [] ∨ ∃ r, sfx = ' ' :: r) →
      dueMatch true (tk ++ sfx) = none :=
    fun tk h sfx hsfx => dueMatch_tok_none (hprops tk h).1 (hprops tk h).2.1 hsfx
  have hrfree : ∀ tk ∈ pre1Toks t, endsRecTag tk = false :=
    fun tk h => (hprops tk h).2.2
  have hndue : ∀ tk ∈ pre1Toks t, isDueTagTok tk = false :=
    fun tk h => (hprops tk h).2.1
  have hcomp := stripCompletion_serialized t hv hs
  have hprio := stripPriority_serialized t hv hs
  have hv' := hv
  simp only [validItem, Bool.and_eq_true] at hv'
  obtain ⟨⟨⟨⟨⟨⟨⟨-, -⟩, -⟩, -⟩, -⟩, h6⟩, h7⟩, -⟩ := hv'
  have htail := tailToks_decomp t
  rcases hD : t.due with _ | d <;> rcases hR : t.recurrence with _ | r
  · -- no due date, no recurrence
    have hdt : dueToks t = [] := by simp [dueToks, hD]
    have hrt : recToks t = [] := by simp [recToks, hR]
    have htt : tailToks t = pre1Toks t := by
      rw [htail, hdt, hrt, List.append_nil, List.append_nil]
    have hExtDue : extractDue (joinT (tailToks t)) = none := by
      rw [htt]
      exact extractDue_join_none _ hgood hndue
    have hExtRec : extractRec (joinT (tailToks t)) = none := by
      rw [htt]
      exact extractRec_join_none _ hgood hrfree
    have hsplit : splitWs (joinT (tailToks t)) = pre1Toks t := by
      rw [htt]
      exact splitWs_join hgood
    simp only [parseItem, hcomp, hprio, hExtDue, hExtRec, hsplit, Option.map_none',
      TodoTxtItem.mk.injEq, and_true, true_and]
    refine ⟨congrArg (fun l => String.mk (joinT l)) (pre1_text t hv), ?_, ?_⟩
    · show (if (pre1Toks t).filterMap (fun tk =>
          match tk with
          | c :: v => if c = '+' then some (String.mk v) else none
          | [] => none) = [] then none
        else some ((pre1Toks t).filterMap (fun tk =>
          match tk with
          | c :: v => if c = '+' then some (String.mk v) else none
          | [] => none))) = t.projects
      rw [pre1_projects t hv]
      exact projects_opt_eq t hv
    · show (if (pre1Toks t).filterMap (fun tk =>
          match tk with
          | c :: v => if c = '@' then some (String.mk v) else none
          | [] => none) = [] then none
        else some ((pre1Toks t).filterMap (fun tk =>
          match tk with
          | c :: v => if c = '@' then some (String.mk v) else none
          | [] => none))) = t.contexts
      rw [pre1_contexts t hv]
      exact contexts_opt_eq t hv
  · -- recurrence only
    have hdt : dueToks t = [] := by simp [dueToks, hD]
    have hrt : recToks t = ['r' :: 'e' :: 'c' :: ':' :: r.render.data] := by
      simp [recToks, hR]
    have h7' : recOk r = true := by rw [hR] at h7; exact h7
    obtain ⟨hdata, ha, hu, hmk⟩ := recRender_data h7'
    have hjoin : joinT (tailToks t)
        = prependToks (pre1Toks t) ('r' :: 'e' :: 'c' :: ':' :: r.render.data) := by
      rw [htail, hdt, List.append_nil, hrt, joinT_concat]
    have hExtDue : extractDue (joinT (tailToks t)) = none := by
      rw [hjoin, extractDue_prepend _ _ hgood hdnone, hdata]
      rw [show extractDue ['r', 'e', 'c', ':', digitChar r.amount, r.key.data.headD 'd']
          = none from extractDue_single_tok _ (goodTok_recTag ha hu) (by
            have h := dueMatch_tok_none (goodTok_recTag ha hu)
              (isDueTagTok_not_d _ (by decide)) (Or.inl rfl)
            simpa using h)]
      rfl
    have hExtRec : extractRec (joinT (tailToks t))
        = some ((r, r.render), prependToks (pre1Toks t) []) := by
      rw [hjoin, extractRec_prepend _ _ hgood hrfree, hdata,
        extractRec_rec_tok _ _ ha hu, hmk]
      simp only [Option.map_some']
      rw [← hdata, String_mk_data]
    have hsplit : splitWs (prependToks (pre1Toks t) []) = pre1Toks t := by
      rw [splitWs_prependToks _ _ hgood, show splitWs ([] : List Char) = [] from rfl,
        List.append_nil]
    simp only [parseItem, hcomp, hprio, hExtDue, hExtRec, hsplit, Option.map_some',
      Option.map_none', TodoTxtItem.mk.injEq, and_true, true_and]
    refine ⟨congrArg (fun l => String.mk (joinT l)) (pre1_text t hv), ?_, ?_⟩
    · show (if (pre1Toks t).filterMap (fun tk =>
          match tk with
          | c :: v => if c = '+' then some (String.mk v) else none
          | [] => none) = [] then none
        else some ((pre1Toks t).filterMap (fun tk =>
          match tk with
          | c :: v => if c = '+' then some (String.mk v) else none
          | [] => none))) = t.projects
      rw [pre1_projects t hv]
      exact projects_opt_eq t hv
    · show (if (pre1Toks t).filterMap (fun tk =>
          match tk with
          | c :: v => if c = '@' then some (String.mk v) else none
          | [] => none) = [] then none
        else some ((pre1Toks t).filterMap (fun tk =>
          match tk with
          | c :: v => if c = '@' then some (String.mk v) else none
          | [] => none))) = t.contexts
      rw [pre1_contexts t hv]
      exact contexts_opt_eq t hv
  · -- due date only
    have hdt : dueToks t = ['d' :: 'u' :: 'e' :: ':' :: dateToStringL d] := by
      simp [dueToks, hD]
    have hrt : recToks t = [] := by simp [recToks, hR]
    have h6' : validDate d = true := by rw [hD] at h6; exact h6
    have hjoin : joinT (tailToks t)
        = prependToks (pre1Toks t) ('d' :: 'u' :: 'e' :: ':' :: dateToStringL d) := by
      rw [htail, hrt, List.append_nil, hdt, joinT_concat]
    have hExtDue : extractDue (joinT (tailToks t))
        = some ((d, dateToStringL d), prependToks (pre1Toks t) []) := by
      rw [hjoin, extractDue_prepend _ _ hgood hdnone, extractDue_head_nil h6']
      rfl
    have hExtRec : extractRec (prependToks (pre1Toks t) []) = none := by
      rw [extractRec_prepend _ _ hgood hrfree]
      rfl
    have hsplit : splitWs (prependToks (pre1Toks t) []) = pre1Toks t := by
      rw [splitWs_prependToks _ _ hgood, show splitWs ([] : List Char) = [] from rfl,
        List.append_nil]
    simp only [parseItem, hcomp, hprio, hExtDue, hExtRec, hsplit, Option.map_some',
      Option.map_none', dateToString, TodoTxtItem.mk.injEq, and_true, true_and]
    refine ⟨congrArg (fun l => String.mk (joinT l)) (pre1_text t hv), ?_, ?_⟩
    · show (if (pre1Toks t).filterMap (fun tk =>
          match tk with
          | c :: v => if c = '+' then some (String.mk v) else none
          | [] => none) = [] then none
        else some ((pre1Toks t).filterMap (fun tk =>
          match tk with
          | c :: v => if c = '+' then some (String.mk v) else none
          | [] => none))) = t.projects
      rw [pre1_projects t hv]
      exact projects_opt_eq t hv
    · show (if (pre1Toks t).filterMap (fun tk =>
          match tk with
          | c :: v => if c = '@' then some (String.mk v) else none
          | [] => none) = [] then none
        else some ((pre1Toks t).filterMap (fun tk =>
          match tk with
          | c :: v => if c = '@' then some (String.mk v) else none
          | [] => none))) = t.contexts
      rw [pre1_contexts t hv]
      exact contexts_opt_eq t hv
  · -- due date and recurrence
    have hdt : dueToks t = ['d' :: 'u' :: 'e' :: ':' :: dateToStringL d] := by
      simp [dueToks, hD]
    have hrt : recToks t = ['r' :: 'e' :: 'c' :: ':' :: r.render.data] := by
      simp [recToks, hR]
    have h6' : validDate d = true := by rw [hD] at h6; exact h6
    have h7' : recOk r = true := by rw [hR] at h7; exact h7
    obtain ⟨hdata, ha, hu, hmk⟩ := recRender_data h7'
    have hjoin : joinT (tailToks t)
        = prependToks (pre1Toks t)
          (('d' :: 'u' :: 'e' :: ':' :: dateToStringL d)
            ++ ' ' :: ('r' :: 'e' :: 'c' :: ':' :: r.render.data)) := by
      rw [htail, hdt, hrt,
        show pre1Toks t ++ ['d' :: 'u' :: 'e' :: ':' :: dateToStringL d]
            ++ ['r' :: 'e' :: 'c' :: ':' :: r.render.data]
          = pre1Toks t ++ ['d' :: 'u' :: 'e' :: ':' :: dateToStringL d,
              'r' :: 'e' :: 'c' :: ':' :: r.render.data] from by simp,
        joinT_append _ _ (by simp)]
      rfl
    have hExtDue : extractDue (joinT (tailToks t))
        = some ((d, dateToStringL d),
            prependToks (pre1Toks t) ('r' :: 'e' :: 'c' :: ':' :: r.render.data)) := by
      rw [hjoin, extractDue_prepend _ _ hgood hdnone]
      rw [show ('d' :: 'u' :: 'e' :: ':' :: dateToStringL d)
            ++ ' ' :: ('r' :: 'e' :: 'c' :: ':' :: r.render.data)
          = 'd' :: 'u' :: 'e' :: ':' :: (dateToStringL d
            ++ ' ' :: ('r' :: 'e' :: 'c' :: ':' :: r.render.data)) from by simp]
      rw [extractDue_head_ws h6']
      rfl
    have hExtRec : extractRec (prependToks (pre1Toks t)
          ('r' :: 'e' :: 'c' :: ':' :: r.render.data))
        = some ((r, r.render), prependToks (pre1Toks t) []) := by
      rw [extractRec_prepend _ _ hgood hrfree, hdata,
        extractRec_rec_tok _ _ ha hu, hmk]
      simp only [Option.map_some']
      rw [← hdata, String_mk_data]
    have hsplit : splitWs (prependToks (pre1Toks t) []) = pre1Toks t := by
      rw [splitWs_prependToks _ _ hgood, show splitWs ([] : List Char) = [] from rfl,
        List.append_nil]
    simp only [parseItem, hcomp, hprio, hExtDue, hExtRec, hsplit, Option.map_some',
      Option.map_none', dateToString, TodoTxtItem.mk.injEq, and_true, true_and]
    refine ⟨congrArg (fun l => String.mk (joinT l)) (pre1_text t hv), ?_, ?_⟩
    · show (if (pre1Toks t).filterMap (fun tk =>
          match tk with
          | c :: v => if c = '+' then some (String.mk v) else none
          | [] => none) = [] then none
        else some ((pre1Toks t).filterMap (fun tk =>
          match tk with
          | c :: v => if c = '+' then some (String.mk v) else none
          | [] => none))) = t.projects
      rw [pre1_projects t hv]
      exact projects_opt_eq t hv
    · show (if (pre1Toks t).filterMap (fun tk =>
          match tk with
          | c :: v => if c = '@' then some (String.mk v) else none
          | [] => none) = [] then none
        else some ((pre1Toks t).filterMap (fun tk =>
          match tk with
          | c :: v => if c = '@' then some (String.mk v) else none
          | [] => none))) = t.contexts
      rw [pre1_contexts t hv]
      exact contexts_opt_eq t hv

theorem createBase_fields (now : CalDate) (d : TaskData) :
    (createBase now d).date = some now ∧
    (createBase now d).text = (parseItem d.text.data).text ∧
    (createBase now d).contexts = (parseItem d.text.data).contexts ∧
    (createBase now d).recurrence = (parseItem d.text.data).recurrence ∧
    (createBase now d).recString = (parseItem d.text.data).recString ∧
    (createBase now d).projects = (if d.project.truthy then some [d.project.getS]
      else (parseItem d.text.data).projects) ∧
    (createBase now d).priority = (if d.priority.truthy then some d.priority.getS
      else (parseItem d.text.data).priority) ∧
    (createBase now d).due = (if d.dueDate.truthy then stringToDate d.dueDate.getS
      else (parseItem d.text.data).due) ∧
    (createBase now d).dueString = (if d.dueDate.truthy then some d.dueDate.getS
      else (parseItem d.text.data).dueString) := by
  unfold createBase
  rcases hp : d.project.truthy <;> rcases hq : d.priority.truthy <;>
    rcases hd : d.dueDate.truthy <;> simp [hp, hq, hd]

theorem create_fields {now : CalDate} {data : TaskData} {t : Task}
    (h : Task.create now data = some t) :
    t.todoItem.date = some now ∧
    t.todoItem.text = (parseItem data.text.data).text ∧
    t.todoItem.contexts = (parseItem data.text.data).contexts ∧
    t.todoItem.projects = (if data.project.truthy then some [data.project.getS]
      else (parseItem data.text.data).projects) ∧
    t.todoItem.priority = (if data.priority.truthy then some data.priority.getS
      else (parseItem data.text.data).priority) ∧
    t.todoItem.due = (if data.dueDate.truthy then stringToDate data.dueDate.getS
      else (parseItem data.text.data).due) ∧
    t.todoItem.dueString = (if data.dueDate.truthy then some data.dueDate.getS
      else (parseItem data.text.data).dueString) ∧
    t.todoItem.recurrence = (if data.recurrence.truthy
      then TaskRecurrence.fromString data.recurrence.getS
      else (parseItem data.text.data).recurrence) ∧
    t.todoItem.recString = (if data.recurrence.truthy then some data.recurrence.getS
      else (parseItem data.text.data).recString) := by
  have hb := createBase_fields now data
  unfold Task.create at h
  split at h
  case isTrue hrt =>
    split at h
    case h_1 r hr =>
      simp only [Option.some.injEq] at h
      subst h
      refine ⟨hb.1, hb.2.1, hb.2.2.1, ?_, ?_, ?_, ?_, ?_, ?_⟩
      · exact hb.2.2.2.2.2.1
      · exact hb.2.2.2.2.2.2.1
      · exact hb.2.2.2.2.2.2.2.1
      · exact hb.2.2.2.2.2.2.2.2
      · simp [hrt, hr]
      · simp [hrt]
    case h_2 => exact absurd h (by simp)
  case isFalse hrt =>
    simp only [Option.some.injEq] at h
    subst h
    simp only [Bool.not_eq_true] at hrt
    refine ⟨hb.1, hb.2.1, hb.2.2.1, hb.2.2.2.2.2.1, hb.2.2.2.2.2.2.1,
      hb.2.2.2.2.2.2.2.1, hb.2.2.2.2.2.2.2.2, ?_, ?_⟩
    · simp [hrt, hb.2.2.2.1]
    · simp [hrt, hb.2.2.2.2.1]

theorem updateBase_fields (t : Task) (d : TaskData) :
    (updateBase t d).text = d.text ∧
    (updateBase t d).date = t.todoItem.date ∧
    (updateBase t d).complete = t.todoItem.complete ∧
    (updateBase t d).completed = t.todoItem.completed ∧
    (updateBase t d).contexts = t.todoItem.contexts ∧
    (updateBase t d).projects = (if d.project.truthy then some [d.project.getS]
      else none) ∧
    (updateBase t d).priority = (if d.priority.truthy then some d.priority.getS
      else none) ∧
    (updateBase t d).due = (if d.dueDate.truthy then stringToDate d.dueDate.getS
      else none) ∧
    (updateBase t d).dueString = (if d.dueDate.truthy then some d.dueDate.getS
      else none) := by
  unfold updateBase
  rcases hp : d.project.truthy <;> rcases hq : d.priority.truthy <;>
    rcases hd : d.dueDate.truthy <;> simp [hp, hq, hd]

theorem update_fields {data : TaskData} {t t2 : Task}
    (h : Task.update t data = some t2) :
    t2.todoItem.text = data.text ∧
    t2.todoItem.date = t.todoItem.date ∧
    t2.todoItem.complete = t.todoItem.complete ∧
    t2.todoItem.completed = t.todoItem.completed ∧
    t2.todoItem.contexts = t.todoItem.contexts ∧
    t2.todoItem.projects = (if data.project.truthy then some [data.project.getS]
      else none) ∧
    t2.todoItem.priority = (if data.priority.truthy then some data.priority.getS
      else none) ∧
    t2.todoItem.due = (if data.dueDate.truthy then stringToDate data.dueDate.getS
      else none) ∧
    t2.todoItem.dueString = (if data.dueDate.truthy then some data.dueDate.getS
      else none) ∧
    t2.todoItem.recurrence = (if data.recurrence.truthy
      then TaskRecurrence.fromString data.recurrence.getS
      else none) ∧
    t2.todoItem.recString = (if data.recurrence.truthy then some data.recurrence.getS
      else none) := by
  have hb := updateBase_fields t data
  unfold Task.update at h
  split at h
  case isTrue hrt =>
    split at h
    case h_1 r hr =>
      simp only [Option.some.injEq] at h
      subst h
      exact ⟨hb.1, hb.2.1, hb.2.2.1, hb.2.2.2.1, hb.2.2.2.2.1, hb.2.2.2.2.2.1,
        hb.2.2.2.2.2.2.1, hb.2.2.2.2.2.2.2.1, hb.2.2.2.2.2.2.2.2,
        by simp [hrt, hr], by simp [hrt]⟩
    case h_2 => exact absurd h (by simp)
  case isFalse hrt =>
    simp only [Option.some.injEq] at h
    subst h
    simp only [Bool.not_eq_true] at hrt
    exact ⟨hb.1, hb.2.1, hb.2.2.1, hb.2.2.2.1, hb.2.2.2.2.1, hb.2.2.2.2.2.1,
      hb.2.2.2.2.2.2.1, hb.2.2.2.2.2.2.2.1, hb.2.2.2.2.2.2.2.2,
      by simp [hrt], by simp [hrt]⟩

/-- **C6 counterexample**: the extractors are not idempotent on every
line.  `RECURRENCE_TAG_REGEXP` removes only the first match, so on
`"rec:1d rec:2w"` the recurrence extractor returns the residual
`"rec:2w"`, and applying the extractor to that residual finds a
further match instead of the absent triple. -/
theorem extractor_idempotent_cex :
    parsingFunction "rec:1d rec:2w"
      = (some ⟨1, "d"⟩, some "rec:2w", some "1d") ∧
    parsingFunction "rec:2w" ≠ (none, none, none) := by decide

/-- **C6 amended**: the extractors remove only the first match, so a
line holding several recurrence tags refutes idempotence; idempotence
does hold on canonical lines: when the recurrence tag occurs as a
whitespace-delimited token and the rest of the line contains no
occurrence of the substring `rec:`, the extractor removes exactly that
tag, and re-applying it to the residual line yields the absent result
for all three outputs. -/
theorem extractor_idempotent_amended (s t : List Char) (a u : Char)
    (hs : containsSeq ['r', 'e', 'c', ':'] s = false)
    (ht : containsSeq ['r', 'e', 'c', ':'] t = false)
    (ha : isRecAmt a = true) (hu : isRecUnit u = true) :
    parsingFunction
        (String.mk (s ++ ' ' :: 'r' :: 'e' :: 'c' :: ':' :: a :: u :: ' ' :: t))
      = (some (mkRec a u), some (String.mk (s ++ ' ' :: t)), some (String.mk [a, u])) ∧
    parsingFunction (String.mk (s ++ ' ' :: t)) = (none, none, none) := by
  constructor
  · unfold parsingFunction
    rw [show (String.mk (s ++ ' ' :: 'r' :: 'e' :: 'c' :: ':' :: a :: u :: ' ' :: t)).data
        = s ++ ' ' :: 'r' :: 'e' :: 'c' :: ':' :: a :: u :: ' ' :: t from rfl]
    rw [extractRec_canonical s t a u hs ha hu]
  · unfold parsingFunction
    rw [show (String.mk (s ++ ' ' :: t)).data = s ++ ' ' :: t from rfl]
    rw [extractRec_split_none hs ht]

/-- Witness for the amended C6 at a concrete line
`"water plants rec:1d @home"`. -/
theorem extractor_idempotent_amended_witness :
    parsingFunction
        (String.mk ("water plants".data
          ++ ' ' :: 'r' :: 'e' :: 'c' :: ':' :: '1' :: 'd' :: ' ' :: "@home".data))
      = (some (mkRec '1' 'd'),
         some (String.mk ("water plants".data ++ ' ' :: "@home".data)),
         some (String.mk ['1', 'd'])) ∧
    parsingFunction (String.mk ("water plants".data ++ ' ' :: "@home".data))
      = (none, none, none) :=
  extractor_idempotent_amended "water plants".data "@home".data '1' 'd'
    (by decide) (by decide) (by decide) (by decide)

/-- **C5 counterexample**: `create(data)` does not map fields from
exactly the non-empty strings of the record: the `TodoTxtItem`
constructor parses `data.text` as a full todo.txt line, so a due tag
embedded in the text populates `due` even though `data.dueDate` is the
empty string. -/
theorem create_fields_cex :
    (Task.create ⟨2024, 5, 1⟩
      { text := "pay rent due:2024-05-05", project := JStr.str "",
        priority := JStr.str "", dueDate := JStr.str "",
        recurrence := JStr.str "" }).map (fun t => t.todoItem.due)
      = some (some ⟨2024, 5, 5⟩) := by decide

/-- **C5 amended**: `create(data)` first parses `data.text` as a
todo.txt line, then sets `creationDate = now` and overrides each of
project / priority / due / recurrence from the corresponding record
field exactly when that field is a non-empty string; a field left
empty keeps whatever parsing the text produced (absent only when the
text embeds no such tag). -/
theorem create_fields_amended (now : CalDate) (data : TaskData) (t : Task)
    (h : Task.create now data = some t) :
    t.todoItem.date = some now ∧
    t.todoItem.text = (parseItem data.text.data).text ∧
    t.todoItem.contexts = (parseItem data.text.data).contexts ∧
    t.todoItem.projects = (if data.project.truthy then some [data.project.getS]
      else (parseItem data.text.data).projects) ∧
    t.todoItem.priority = (if data.priority.truthy then some data.priority.getS
      else (parseItem data.text.data).priority) ∧
    t.todoItem.due = (if data.dueDate.truthy then stringToDate data.dueDate.getS
      else (parseItem data.text.data).due) ∧
    t.todoItem.dueString = (if data.dueDate.truthy then some data.dueDate.getS
      else (parseItem data.text.data).dueString) ∧
    t.todoItem.recurrence = (if data.recurrence.truthy
      then TaskRecurrence.fromString data.recurrence.getS
      else (parseItem data.text.data).recurrence) ∧
    t.todoItem.recString = (if data.recurrence.truthy then some data.recurrence.getS
      else (parseItem data.text.data).recString) :=
  create_fields h

/-- Witness for the amended C5: a record with non-empty project and
due date, empty priority and recurrence, and a plain text. -/
theorem create_fields_amended_witness :
    (Task.create ⟨2024, 5, 1⟩
      { text := "call mom", project := JStr.str "home", priority := JStr.str "",
        dueDate := JStr.str "2024-06-01", recurrence := JStr.str "" }).map
      (fun t => (t.todoItem.date, t.todoItem.projects, t.todoItem.due,
        t.todoItem.recurrence))
      = some (some ⟨2024, 5, 1⟩,
          (if (JStr.str "home").truthy then some [(JStr.str "home").getS]
            else (parseItem "call mom".data).projects),
          (if (JStr.str "2024-06-01").truthy
            then stringToDate (JStr.str "2024-06-01").getS
            else (parseItem "call mom".data).due),
          (if (JStr.str "").truthy
            then TaskRecurrence.fromString (JStr.str "").getS
            else (parseItem "call mom".data).recurrence)) := by
  rcases hc : Task.create ⟨2024, 5, 1⟩
      { text := "call mom", project := JStr.str "home", priority := JStr.str "",
        dueDate := JStr.str "2024-06-01", recurrence := JStr.str "" } with _ | t
  · exact absurd hc (by decide)
  · have H := create_fields_amended ⟨2024, 5, 1⟩ _ t hc
    simp only [Option.map_some', H.1, H.2.2.2.1, H.2.2.2.2.2.1, H.2.2.2.2.2.2.2.1]
    try rfl

/-- **C10 counterexample**: `create` with a non-empty but unparseable
`dueDate` string stores the raw string in `dueString` while the parsed
`due` is absent, so the stored string is not the rendering of any due
date — the parsed date and its string form disagree. -/
theorem due_string_agree_cex :
    (Task.create ⟨2024, 1, 1⟩
      { text := "hello", project := JStr.str "", priority := JStr.str "",
        dueDate := JStr.str "2024-13-99", recurrence := JStr.str "" }).map
      (fun t => (t.todoItem.due, t.todoItem.dueString, dueAgrees t.todoItem))
      = some (none, some "2024-13-99", false) := by decide

/-- **C10 amended**: `create` and `update` with a non-empty `dueDate`
string set `due` to the parsed date and `dueString` to the supplied
string, which equals the rendering of the parsed date whenever the
string parses as a valid date (so the pair agrees); `update` with an
empty `dueDate` removes both; `postpone` on a task with a due date and
`recur` re-render the string from the new date, so their results
always agree. -/
theorem due_string_agree_amended (now : CalDate) (data : TaskData)
    (t t2 : Task) (d : CalDate) :
    (Task.create now data = some t2 → data.dueDate.truthy = true →
      (stringToDate data.dueDate.getS).isSome = true →
      dueAgrees t2.todoItem = true) ∧
    (Task.update t data = some t2 → data.dueDate.truthy = true →
      (stringToDate data.dueDate.getS).isSome = true →
      dueAgrees t2.todoItem = true) ∧
    (Task.update t data = some t2 → data.dueDate.truthy = false →
      t2.todoItem.due = none ∧ t2.todoItem.dueString = none) ∧
    (t.todoItem.due = some d → dueAgrees (t.postpone).fst.todoItem = true) ∧
    (t.recur.snd = some t2 → dueAgrees t2.todoItem = true) := by
  have hagree : ∀ (ti : TodoTxtItem) (s : String),
      ti.due = stringToDate s → ti.dueString = some s →
      (stringToDate s).isSome = true → dueAgrees ti = true := by
    intro ti s hdue hds hsome
    rcases hp : stringToDate s with _ | dd
    · rw [hp] at hsome
      exact absurd hsome (by simp)
    · rw [hp] at hdue
      obtain ⟨hrender, -⟩ := dateToStringL_parseDate10 hp
      unfold dueAgrees
      rw [hdue, hds]
      have : s = dateToString dd := by
        unfold dateToString
        rw [hrender]
      simp [this]
  refine ⟨?_, ?_, ?_, ?_, ?_⟩
  · intro h htr hsome
    have H := create_fields h
    apply hagree _ data.dueDate.getS _ _ hsome
    · rw [H.2.2.2.2.2.1, if_pos htr]
    · rw [H.2.2.2.2.2.2.1, if_pos htr]
  · intro h htr hsome
    have H := update_fields h
    apply hagree _ data.dueDate.getS _ _ hsome
    · rw [H.2.2.2.2.2.2.2.1, if_pos htr]
    · rw [H.2.2.2.2.2.2.2.2.1, if_pos htr]
  · intro h htr
    have H := update_fields h
    constructor
    · rw [H.2.2.2.2.2.2.2.1, if_neg (by simp [htr])]
    · rw [H.2.2.2.2.2.2.2.2.1, if_neg (by simp [htr])]
  · intro hd
    unfold Task.postpone
    rw [hd]
    simp [dueAgrees]
  · intro h
    unfold Task.recur at h
    rcases hdu : t.todoItem.due with _ | dd <;> rw [hdu] at h
    · simp at h
    · rcases hre : t.todoItem.recurrence with _ | r <;> rw [hre] at h
      · simp at h
      · simp only [Option.some.injEq] at h
        subst h
        simp [dueAgrees]

/-- Witness for the amended C10 at concrete inputs. -/
theorem due_string_agree_amended_witness :
    dueAgrees ((Task.parse "a due:2024-03-04").postpone).fst.todoItem = true ∧
    (Task.update (Task.parse "a due:2024-03-04")
      { text := "a", project := JStr.str "", priority := JStr.str "",
        dueDate := JStr.str "", recurrence := JStr.str "" }).map
      (fun t2 => (t2.todoItem.due, t2.todoItem.dueString))
      = some (none, none) := by
  constructor
  · exact (due_string_agree_amended ⟨2024, 1, 1⟩
      { text := "a", project := JStr.str "", priority := JStr.str "",
        dueDate := JStr.str "", recurrence := JStr.str "" }
      (Task.parse "a due:2024-03-04") (Task.parse "a due:2024-03-04")
      ⟨2024, 3, 4⟩).2.2.2.1 (by decide)
  · rcases hu : Task.update (Task.parse "a due:2024-03-04")
      { text := "a", project := JStr.str "", priority := JStr.str "",
        dueDate := JStr.str "", recurrence := JStr.str "" } with _ | t2
    · exact absurd hu (by decide)
    · have H := (due_string_agree_amended ⟨2024, 1, 1⟩ _
        (Task.parse "a due:2024-03-04") t2 ⟨2024, 3, 4⟩).2.2.1 hu (by decide)
      simp only [Option.map_some', H.1, H.2]
      try rfl

/-- **C7**: `postpone()` never throws (it is a total function) and
returns a boolean: with `due` unset it returns `false` and leaves the
task unchanged; with `due` set it advances `due` by exactly one
calendar day (`nextDay`, which rolls over month boundaries),
re-renders the stored due string, and returns `true`. -/
theorem postpone_spec (t : Task) :
    (t.todoItem.due = none → t.postpone = (t, false)) ∧
    (∀ d, t.todoItem.due = some d →
      t.postpone = (⟨{ t.todoItem with
        due := some (nextDay d),
        dueString := some (dateToString (nextDay d)) }⟩, true)) := by
  constructor
  · intro h
    simp [Task.postpone, h]
  · intro d h
    simp [Task.postpone, h]

/-- Witness for C7 at concrete tasks: a task with no due date is
returned unchanged with `false`; `due = 2024-01-31` becomes
`2024-02-01` (month rollover) with `true`. -/
theorem postpone_spec_witness :
    (Task.parse "buy milk").postpone = (Task.parse "buy milk", false) ∧
    ((Task.parse "pay due:2024-01-31").postpone).snd = true ∧
    ((Task.parse "pay due:2024-01-31").postpone).fst.todoItem.due
      = some ⟨2024, 2, 1⟩ ∧
    ((Task.parse "pay due:2024-01-31").postpone).fst.todoItem.dueString
      = some "2024-02-01" := by
  refine ⟨(postpone_spec (Task.parse "buy milk")).1 (by decide), ?_, ?_, ?_⟩
  · rw [(postpone_spec (Task.parse "pay due:2024-01-31")).2 ⟨2024, 1, 31⟩ (by decide)]
  · rw [(postpone_spec (Task.parse "pay due:2024-01-31")).2 ⟨2024, 1, 31⟩ (by decide)]
    decide
  · rw [(postpone_spec (Task.parse "pay due:2024-01-31")).2 ⟨2024, 1, 31⟩ (by decide)]
    decide

/-- **C9**: tasks produced by `parse` and `create` satisfy the
invariant `completedDate present iff complete`; `toggleComplete`
preserves the invariant (false-to-true sets `completed` to now,
true-to-false clears it); and toggling twice restores the original
`complete` boolean and the presence/absence of `completedDate`. -/
theorem toggleComplete_spec :
    (∀ s : String, (Task.parse s).todoItem.complete
        = (Task.parse s).todoItem.completed.isSome) ∧
    (∀ (now : CalDate) (d : TaskData) (t : Task), Task.create now d = some t →
      t.todoItem.complete = t.todoItem.completed.isSome) ∧
    (∀ (t : Task) (now : CalDate),
      t.todoItem.complete = t.todoItem.completed.isSome →
      (Task.toggleComplete now t).todoItem.complete
        = (Task.toggleComplete now t).todoItem.completed.isSome) ∧
    (∀ (t : Task) (now : CalDate), t.todoItem.complete = false →
      (Task.toggleComplete now t).todoItem.complete = true ∧
      (Task.toggleComplete now t).todoItem.completed = some now) ∧
    (∀ (t : Task) (now : CalDate), t.todoItem.complete = true →
      (Task.toggleComplete now t).todoItem.complete = false ∧
      (Task.toggleComplete now t).todoItem.completed = none) ∧
    (∀ (t : Task) (n1 n2 : CalDate),
      t.todoItem.complete = t.todoItem.completed.isSome →
      (Task.toggleComplete n2 (Task.toggleComplete n1 t)).todoItem.complete
          = t.todoItem.complete ∧
      (Task.toggleComplete n2 (Task.toggleComplete n1 t)).todoItem.completed.isSome
          = t.todoItem.completed.isSome) := by
  refine ⟨?_, ?_, ?_, ?_, ?_, ?_⟩
  · intro s
    show (parseItem s.data).complete = (parseItem s.data).completed.isSome
    rw [parseItem_complete, parseItem_completed]
    exact stripCompletion_inv s.data
  · intro now d t h
    rcases create_completion h with ⟨h1, h2⟩
    rw [h1, h2, parseItem_complete, parseItem_completed]
    exact stripCompletion_inv d.text.data
  · intro t now h
    unfold Task.toggleComplete
    cases hc : t.todoItem.complete <;> simp [hc]
  · intro t now h
    unfold Task.toggleComplete
    simp [h]
  · intro t now h
    unfold Task.toggleComplete
    simp [h]
  · intro t n1 n2 h
    unfold Task.toggleComplete
    cases hc : t.todoItem.complete <;> simp [hc] <;> simp [hc] at h <;> simp [h]

/-- Witness for C9 at concrete inputs. -/
theorem toggleComplete_spec_witness :
    (Task.parse "x 2024-01-05 done task").todoItem.complete
      = (Task.parse "x 2024-01-05 done task").todoItem.completed.isSome ∧
    ((Task.toggleComplete ⟨2024, 2, 2⟩ (Task.parse "open task")).todoItem.complete
      = true) ∧
    (Task.toggleComplete ⟨2024, 3, 3⟩
        (Task.toggleComplete ⟨2024, 2, 2⟩ (Task.parse "open task"))).todoItem.complete
      = (Task.parse "open task").todoItem.complete := by
  refine ⟨toggleComplete_spec.1 "x 2024-01-05 done task", ?_, ?_⟩
  · exact (toggleComplete_spec.2.2.2.1 (Task.parse "open task") ⟨2024, 2, 2⟩
      (by decide)).1
  · exact (toggleComplete_spec.2.2.2.2.2 (Task.parse "open task")
      ⟨2024, 2, 2⟩ ⟨2024, 3, 3⟩ (by decide)).1

/-- **C1** (code bug): on a task with both `due` and a monthly
recurrence set, `recur()` does not advance the due date by a calendar
month: `addTo` passes the raw key `"m"` to `moment.add`, which reads
lowercase `m` as minutes (months are `M`), so the copy's due calendar
date equals the old one — and differs from the spec's intended clamped
month-add whenever that would change the date.  (The day and week
units, `"d"` and `"w"`, do advance the date as claimed.) -/
theorem recur_monthly_minutes_bug (t : Task) (d : CalDate) (r : TaskRecurrence)
    (hd : t.todoItem.due = some d) (hr : t.todoItem.recurrence = some r)
    (hk : r.key = "m") :
    ∃ t2, (t.recur).snd = some t2 ∧
      t2.todoItem.due = some d ∧
      (¬addMonths r.amount d = d → ¬t2.todoItem.due = some (addMonths r.amount d)) ∧
      (∀ r2 : TaskRecurrence, r2.key = "d" → r2.addTo d = addDays r2.amount d) ∧
      (∀ r2 : TaskRecurrence, r2.key = "w" → r2.addTo d = addDays (7 * r2.amount) d) := by
  have haddTo : r.addTo d = d := by
    simp [TaskRecurrence.addTo, hk]
  refine ⟨⟨{ (t.clone).todoItem with
      due := some (r.addTo d),
      dueString := some (dateToString (r.addTo d)) }⟩, ?_, ?_, ?_, ?_, ?_⟩
  · unfold Task.recur
    rw [hd, hr]
  · show some (r.addTo d) = some d
    rw [haddTo]
  · intro hne h
    rw [haddTo] at h
    simp only [Option.some.injEq] at h
    exact hne h.symm
  · intro r2 hk2
    simp [TaskRecurrence.addTo, hk2]
  · intro r2 hk2
    simp [TaskRecurrence.addTo, hk2]

/-- Witness for the C1 code bug at the spec's own example: a task with
`due = 2024-01-31` and `recurrence = "1m"` recurs into a copy whose
due date is still 2024-01-31, not the intended clamped month-add
result 2024-02-29. -/
theorem recur_monthly_minutes_bug_witness :
    ((Task.parse "task due:2024-01-31 rec:1m").recur).snd.map
      (fun t2 => t2.todoItem.due) = some (some ⟨2024, 1, 31⟩) ∧
    addMonths 1 ⟨2024, 1, 31⟩ = ⟨2024, 2, 29⟩ ∧
    ¬((⟨2024, 2, 29⟩ : CalDate) = ⟨2024, 1, 31⟩) := by
  obtain ⟨t2, h1, h2, -, -, -⟩ := recur_monthly_minutes_bug
    (Task.parse "task due:2024-01-31 rec:1m") ⟨2024, 1, 31⟩ ⟨1, "m"⟩
    (by decide) (by decide) rfl
  refine ⟨?_, by decide, by decide⟩
  rw [h1]
  simp only [Option.map_some']
  rw [h2]

/-- **C3 counterexample**: the claim says every unset optional field of
`toTaskData()` is rendered as the empty string, but an unset priority
is passed through raw and comes out as `null`, not `""`. -/
theorem toTaskData_empty_cex :
    (Task.parse "hello").todoItem.priority = none ∧
    (Task.parse "hello").toTaskData.priority = JStr.null ∧
    JStr.null ≠ JStr.str "" := by decide

/-- **C3 amended**: in the `toTaskData()` snapshot the unset project,
due date and recurrence are rendered as empty strings, but the unset
priority is rendered as the raw absent (`null`) value of the item. -/
theorem toTaskData_empty_amended (t : Task) :
    ((t.todoItem.projects = none ∨ t.todoItem.projects = some []) →
      t.toTaskData.project = JStr.str "") ∧
    (t.todoItem.due = none → t.toTaskData.dueDate = JStr.str "") ∧
    (t.todoItem.recurrence = none → t.toTaskData.recurrence = JStr.str "") ∧
    (t.todoItem.priority = none → t.toTaskData.priority = JStr.null) := by
  refine ⟨?_, ?_, ?_, ?_⟩
  · rintro (h | h) <;> simp [Task.toTaskData, h]
  · intro h
    simp [Task.toTaskData, h]
  · intro h
    simp [Task.toTaskData, h]
  · intro h
    simp [Task.toTaskData, h]

/-- Witness for the amended C3 at a concrete task with all optional
fields unset. -/
theorem toTaskData_empty_amended_witness :
    (Task.parse "hello").toTaskData.project = JStr.str "" ∧
    (Task.parse "hello").toTaskData.dueDate = JStr.str "" ∧
    (Task.parse "hello").toTaskData.recurrence = JStr.str "" ∧
    (Task.parse "hello").toTaskData.priority = JStr.null := by
  refine ⟨(toTaskData_empty_amended (Task.parse "hello")).1 (Or.inl (by decide)),
    (toTaskData_empty_amended (Task.parse "hello")).2.1 (by decide),
    (toTaskData_empty_amended (Task.parse "hello")).2.2.1 (by decide),
    (toTaskData_empty_amended (Task.parse "hello")).2.2.2 (by decide)⟩

/-- **C4 counterexample**: `create` does not complete without a fault
on every `TaskData`: a non-empty recurrence string that does not match
`^([1-7])(d|w|m)$` makes the `TaskRecurrence` constructor dereference
a `null` match (a thrown `TypeError`, modelled by `none`); `update`
faults the same way. -/
theorem create_total_cex :
    Task.create ⟨2024, 1, 1⟩
      { text := "hello", project := JStr.str "", priority := JStr.str "",
        dueDate := JStr.str "", recurrence := JStr.str "8d" } = none ∧
    Task.update (Task.parse "hello")
      { text := "hello", project := JStr.str "", priority := JStr.str "",
        dueDate := JStr.str "", recurrence := JStr.str "8d" } = none := by decide

/-- **C4 amended**: `create(data)` and `update(data)` complete without
throwing for every `TaskData` whose recurrence field is falsy (empty)
or matches the recurrence pattern (i.e. the `TaskRecurrence`
constructor succeeds); all other fields are unrestricted. -/
theorem create_update_total (now : CalDate) (data : TaskData) (t : Task)
    (h : data.recurrence.truthy = false
      ∨ (TaskRecurrence.fromString data.recurrence.getS).isSome = true) :
    (Task.create now data).isSome = true ∧ (Task.update t data).isSome = true := by
  unfold Task.create Task.update
  rcases hb : data.recurrence.truthy with _ | _
  · simp
  · rcases h with h | h
    · exact absurd hb (by simp [h])
    · rcases hf : TaskRecurrence.fromString data.recurrence.getS with _ | r
      · rw [hf] at h
        exact absurd h (by simp)
      · simp [hf]

/-- Witness for the amended C4: concrete calls with an empty and with a
pattern-matching recurrence string both succeed. -/
theorem create_update_total_witness :
    ((Task.create ⟨2024, 1, 1⟩
      { text := "hello", project := JStr.str "", priority := JStr.str "",
        dueDate := JStr.str "", recurrence := JStr.str "" }).isSome = true ∧
     (Task.update (Task.parse "hello")
      { text := "hello", project := JStr.str "", priority := JStr.str "",
        dueDate := JStr.str "", recurrence := JStr.str "" }).isSome = true) ∧
    ((Task.create ⟨2024, 1, 1⟩
      { text := "hello", project := JStr.str "", priority := JStr.str "",
        dueDate := JStr.str "", recurrence := JStr.str "3w" }).isSome = true ∧
     (Task.update (Task.parse "hello")
      { text := "hello", project := JStr.str "", priority := JStr.str "",
        dueDate := JStr.str "", recurrence := JStr.str "3w" }).isSome = true) := by
  constructor
  · exact create_update_total ⟨2024, 1, 1⟩ _ (Task.parse "hello") (Or.inl (by decide))
  · exact create_update_total ⟨2024, 1, 1⟩ _ (Task.parse "hello") (Or.inr (by decide))

/-- **C8 counterexample**: when both `due` and `rec` are set, `recur()`
does not return a full deep copy of the original: the clone is made by
serialize-then-parse and the serialized line carries no creation date,
so a task with a creation date yields a new task whose creation date is
absent. -/
theorem recur_frame_cex :
    validItem (⟨⟨"a", none, none, none, some ⟨2024, 1, 1⟩, false, none,
        some ⟨2024, 5, 5⟩, some "2024-05-05", some ⟨1, "d"⟩, some "1d"⟩⟩ : Task).todoItem
      = true ∧
    (Task.recur ⟨⟨"a", none, none, none, some ⟨2024, 1, 1⟩, false, none,
        some ⟨2024, 5, 5⟩, some "2024-05-05", some ⟨1, "d"⟩, some "1d"⟩⟩).snd.map
        (fun nt => nt.todoItem.date) = some none ∧
    ¬((⟨⟨"a", none, none, none, some ⟨2024, 1, 1⟩, false, none,
        some ⟨2024, 5, 5⟩, some "2024-05-05", some ⟨1, "d"⟩, some "1d"⟩⟩ : Task).todoItem.date
      = none) := by decide

/-- **C8 amended**: `recur()` never writes to the receiver (the
returned receiver equals the original); with `due` or `recurrence`
missing it returns the absent result; with both set, on a valid and
serialization-safe task it returns a new task agreeing with the
original on every field except that the free text is
whitespace-normalized, the creation date is dropped (the serialized
line does not carry it), the copy's due date is set to
`recurrence.addTo(due)` — days for `d`, weeks for `w`, while for `m`
moment adds minutes and the calendar date is unchanged — with its
string form re-rendered, and the raw recurrence string is re-rendered
canonically. -/
theorem recur_frame_amended (t : Task) (hv : validItem t.todoItem = true)
    (hs : serialSafe t.todoItem = true) :
    (Task.recur t).fst = t
    ∧ ((t.todoItem.due = none ∨ t.todoItem.recurrence = none) →
        (Task.recur t).snd = none)
    ∧ (∀ d r, t.todoItem.due = some d → t.todoItem.recurrence = some r →
        (Task.recur t).snd = some ⟨{ t.todoItem with
            text := String.mk (joinT (splitWs t.todoItem.text.data)),
            date := none,
            due := some (r.addTo d),
            dueString := some (dateToString (r.addTo d)),
            recString := some r.render }⟩) := by
  refine ⟨?_, ?_, ?_⟩
  · rcases hD : t.todoItem.due with _ | d <;>
      rcases hR : t.todoItem.recurrence with _ | r <;>
      simp [Task.recur, hD, hR]
  · intro h
    rcases hD : t.todoItem.due with _ | d <;>
      rcases hR : t.todoItem.recurrence with _ | r <;>
      simp [Task.recur, hD, hR]
    rcases h with h | h
    · rw [hD] at h
      exact Option.noConfusion h
    · rw [hR] at h
      exact Option.noConfusion h
  · intro d r hD hR
    simp only [Task.recur, hD, hR]
    rw [show (Task.clone t).todoItem = parseItem (serializeChars t.todoItem) from rfl,
      parse_serialize t.todoItem hv hs]
    simp [hR]

/-- Witness for the amended C8 at a concrete task with a due date
`2024-01-31` and recurrence `"1m"`: the receiver is returned untouched
and the copy's due date is `addTo`'s result — unchanged at
calendar-date granularity, since moment reads the `m` key as
minutes. -/
theorem recur_frame_amended_witness :
    validItem (⟨⟨"a", none, none, none, none, false, none, some ⟨2024, 1, 31⟩,
        some "2024-01-31", some ⟨1, "m"⟩, some "1m"⟩⟩ : Task).todoItem = true
    ∧ serialSafe (⟨⟨"a", none, none, none, none, false, none, some ⟨2024, 1, 31⟩,
        some "2024-01-31", some ⟨1, "m"⟩, some "1m"⟩⟩ : Task).todoItem = true
    ∧ (Task.recur ⟨⟨"a", none, none, none, none, false, none, some ⟨2024, 1, 31⟩,
        some "2024-01-31", some ⟨1, "m"⟩, some "1m"⟩⟩).fst
      = ⟨⟨"a", none, none, none, none, false, none, some ⟨2024, 1, 31⟩,
        some "2024-01-31", some ⟨1, "m"⟩, some "1m"⟩⟩
    ∧ (Task.recur ⟨⟨"a", none, none, none, none, false, none, some ⟨2024, 1, 31⟩,
        some "2024-01-31", some ⟨1, "m"⟩, some "1m"⟩⟩).snd
      = some ⟨{ (⟨⟨"a", none, none, none, none, false, none, some ⟨2024, 1, 31⟩,
            some "2024-01-31", some ⟨1, "m"⟩, some "1m"⟩⟩ : Task).todoItem with
          text := String.mk (joinT (splitWs
            (⟨⟨"a", none, none, none, none, false, none, some ⟨2024, 1, 31⟩,
              some "2024-01-31", some ⟨1, "m"⟩,
              some "1m"⟩⟩ : Task).todoItem.text.data)),
          date := none,
          due := some (TaskRecurrence.addTo ⟨1, "m"⟩ ⟨2024, 1, 31⟩),
          dueString := some (dateToString (TaskRecurrence.addTo ⟨1, "m"⟩ ⟨2024, 1, 31⟩)),
          recString := some (TaskRecurrence.render ⟨1, "m"⟩) }⟩ :=
  ⟨by decide, by decide,
    (recur_frame_amended ⟨⟨"a", none, none, none, none, false, none,
      some ⟨2024, 1, 31⟩, some "2024-01-31", some ⟨1, "m"⟩, some "1m"⟩⟩
      (by decide) (by decide)).1,
    (recur_frame_amended ⟨⟨"a", none, none, none, none, false, none,
      some ⟨2024, 1, 31⟩, some "2024-01-31", some ⟨1, "m"⟩, some "1m"⟩⟩
      (by decide) (by decide)).2.2 ⟨2024, 1, 31⟩ ⟨1, "m"⟩ rfl rfl⟩

end Mindstream
